import Mathlib

/-!
Shallow embedding of `tm_polygon.h` (v1.0c), a single-header C library
implementing ear-clipping triangulation and Greiner-Hormann polygon clipping.

Modelling conventions:
* C `float` arithmetic is modelled by exact rational arithmetic (`ℚ`).
  Where the C code divides by a quantity that can be zero, IEEE-754 produces
  an infinity or a NaN and every subsequent `<=`-style comparison on that
  value is false; at those spots the model makes the zero-denominator case
  explicit instead of relying on the Lean convention `x / 0 = 0`, so that the
  model's control flow matches the float control flow.
* C structs become Lean structures.  The `flags` bitmask of `ClipVertex`
  (bits `CVF_INTERSECT`, `CVF_EXIT`, `CVF_PROCESSED`) is represented by three
  `Bool` fields; every `|=` / `&` in the source touches exactly one of the
  three bits.  The `nextPoly` field of the C struct is never read or written
  by any function in the source and is omitted.
* Caller-supplied arrays (the clip-vertex slabs, the output vertex pool, the
  polygon descriptor array) are modelled as total functions `ℕ → _` updated
  pointwise, mirroring in-place mutation of caller memory; unwritten slots
  keep their initial (caller-provided, i.e. arbitrary) contents.
* `tmpo_index` is `unsigned short`; casts through it are modelled as
  `% 65536`.  `tmpo_size_t` is `size_t`, modelled as `ℕ` (the values that
  occur are far from 2^64).
* Unbounded C `while` loops are modelled by structural recursion on a fuel
  argument.  Theorems about loop invariants are stated for every fuel, which
  covers every (terminating) run of the C loop; concrete executions use a
  fuel that demonstrably exceeds the number of iterations the C loop makes.
-/

/- The core rational arithmetic operations are `@[irreducible]`, which stops
`decide` from evaluating the model on concrete inputs; restore the default
reducibility (the kernel ignores reducibility attributes, so checked proofs
are unaffected). -/
set_option allowUnsafeReducibility true in
attribute [semireducible] Rat.add Rat.sub Rat.mul Rat.neg Rat.inv Rat.blt Rat.div

/-- 2D vector, mirroring `tmpo_vector` (two coordinates). -/
structure TmVec where
  x : ℚ
  y : ℚ
deriving DecidableEq, Repr

/-- The z-component of the cross product of two vectors, the summand of the
shoelace sum in `isPolygonClockwise`. -/
def crossZ (p q : TmVec) : ℚ := p.x * q.y - p.y * q.x

/-- Sum of `crossZ` over adjacent pairs of a path of vertices. -/
def adjSum : List TmVec → ℚ
  | x :: y :: rest => crossZ x y + adjSum (y :: rest)
  | _ => 0

/-- The shoelace sum computed by `isPolygonClockwise`: the loop starts with
`last = count - 1`, so the terms are `crossZ v[n-1] v[0]`, `crossZ v[0] v[1]`,
…, `crossZ v[n-2] v[n-1]`, i.e. `adjSum` over the path `v[n-1] :: v`. -/
def shoelaceSum (l : List TmVec) : ℚ :=
  match l.getLast? with
  | none => 0
  | some lastv => adjSum (lastv :: l)

/-- Model of `isPolygonClockwise` (lines 242-250): returns `sum >= 0`. -/
def isPolygonClockwise (l : List TmVec) : Bool :=
  decide (0 ≤ shoelaceSum l)

/-- Model of the static helper `isTriangleClockwise` (lines 252-262). -/
def isTriangleClockwise (a b c : TmVec) : Bool :=
  let bx := b.x - a.x
  let by_ := b.y - a.y
  let cx := c.x - a.x
  let cy := c.y - a.y
  decide (0 ≤ bx * cy - by_ * cx)

/-- Model of the static helper `pointInsideTriangle` (lines 263-284).
The C code computes `invDenom = 1.0f / (bb*cc - bc*bc)`; when the denominator
is zero (degenerate triangle) the float results `r`, `s` are infinite or NaN
and the comparison chain `r >= 0 && s >= 0 && r + s <= 1` is false, so the
zero-denominator case returns `false` explicitly here. -/
def pointInsideTriangle (a b c v : TmVec) : Bool :=
  let bx := b.x - a.x
  let by_ := b.y - a.y
  let cx := c.x - a.x
  let cy := c.y - a.y
  let vx := v.x - a.x
  let vy := v.y - a.y
  let bc := bx * cx + by_ * cy
  let vc := vx * cx + vy * cy
  let vb := vx * bx + vy * by_
  let cc := cx * cx + cy * cy
  let bb := bx * bx + by_ * by_
  let denom := bb * cc - bc * bc
  if denom = 0 then false
  else
    let r := (cc * vb - bc * vc) / denom
    let s := (bb * vc - bc * vb) / denom
    decide (0 ≤ r) && decide (0 ≤ s) && decide (r + s ≤ 1)

/-- Model of the static helper `isTriangleEar` (lines 285-309): the candidate
triangle must match the polygon orientation and no vertex of the ORIGINAL
vertex array (the loop runs over all `count` input vertices, including ones
already clipped away, skipping only the triangle's own three indices) may lie
inside the closed triangle. -/
def isTriangleEar (qa qb qc : ℕ) (vertices : List TmVec) (count : ℕ)
    (cw : Bool) : Bool :=
  let va := vertices.getD qa ⟨0, 0⟩
  let vb := vertices.getD qb ⟨0, 0⟩
  let vc := vertices.getD qc ⟨0, 0⟩
  if isTriangleClockwise va vb vc ≠ cw then false
  else
    (List.range count).all fun i =>
      if i = qa ∨ i = qb ∨ i = qc then true
      else !(pointInsideTriangle va vb vc (vertices.getD i ⟨0, 0⟩))

/-- Compile-time configuration `TMPO_CLOCKWISE_TRIANGLES` (default 1). -/
def TMPO_CLOCKWISE_TRIANGLES : Bool := true

/-- Loop state of `triangulatePolygonEarClipping`: the active scratch ring
(prefix of `queryList` of length `size`; the C code's stale tail beyond
`size` is never read and is not modelled), the rolling triple `(a, b, c)`
of ring positions, the cursor `current`, the liveness counter and the
indices emitted so far. -/
structure TriState where
  queryList : List ℕ
  a : ℕ
  b : ℕ
  c : ℕ
  current : ℕ
  iterationCount : ℕ
  out : List ℕ
deriving Repr

/-- Cursor after the removal of ring entry `b` (lines 360-363): the C code
computes `current = a` and wraps it into the shrunk ring of `size - 1`
entries. -/
def triCur2 (st : TriState) : ℕ :=
  if st.a ≥ st.queryList.length - 1 then st.a - (st.queryList.length - 1)
  else st.a

/-- New `a` after an ear removal (lines 365-376, rewind by two). -/
def triA2 (st : TriState) : ℕ :=
  if triCur2 st ≥ 2 then triCur2 st - 2
  else st.queryList.length - 1 - (2 - triCur2 st)

/-- New `b` after an ear removal (lines 365-376, rewind by one). -/
def triB2 (st : TriState) : ℕ :=
  if triCur2 st ≥ 2 then triCur2 st - 1
  else if triCur2 st ≥ 1 then triCur2 st - 1
  else st.queryList.length - 1 - (1 - triCur2 st)

/-- State after a successful ear clip (lines 345-376): the three indices are
emitted (through the `tmpo_index` cast), entry `b` leaves the ring, and the
rolling triple rewinds behind the new cursor. -/
def triEarStep (clockwise : Bool) (begin_ : ℕ) (st : TriState) : TriState :=
  { queryList := st.queryList.eraseIdx st.b,
    a := triA2 st, b := triB2 st, c := triCur2 st, current := triCur2 st,
    iterationCount := 0,
    out :=
      if clockwise = TMPO_CLOCKWISE_TRIANGLES then
        st.out ++ [(st.queryList.getD st.a 0 + begin_) % 65536,
                   (st.queryList.getD st.b 0 + begin_) % 65536,
                   (st.queryList.getD st.c 0 + begin_) % 65536]
      else
        st.out ++ [(st.queryList.getD st.a 0 + begin_) % 65536,
                   (st.queryList.getD st.c 0 + begin_) % 65536,
                   (st.queryList.getD st.b 0 + begin_) % 65536] }

/-- State after a failed ear test (lines 377-386): the triple advances, or
wraps to the tail configuration when the cursor leaves the ring, and the
liveness counter increases. -/
def triSkipStep (st : TriState) : TriState :=
  { queryList := st.queryList,
    a := if st.current + 1 ≥ st.queryList.length
         then st.queryList.length - 2 else st.b,
    b := if st.current + 1 ≥ st.queryList.length
         then st.queryList.length - 1 else st.current,
    c := if st.current + 1 ≥ st.queryList.length then 0 else st.current + 1,
    current := if st.current + 1 ≥ st.queryList.length
               then 0 else st.current + 1,
    iterationCount := st.iterationCount + 1,
    out := st.out }

/-- One-loop model of the `while (size > 2)` loop of
`triangulatePolygonEarClipping` (lines 339-393), by structural recursion on
fuel.  Emitted indices go through the `tmpo_index` (unsigned short) cast. -/
def triLoop (vertices : List TmVec) (count : ℕ) (clockwise : Bool)
    (begin_ : ℕ) (maxIndices : ℕ) : ℕ → TriState → List ℕ
  | 0, st => st.out
  | fuel + 1, st =>
    if st.queryList.length > 2 then
      if isTriangleEar (st.queryList.getD st.a 0) (st.queryList.getD st.b 0)
          (st.queryList.getD st.c 0) vertices count clockwise then
        if st.out.length + 3 > maxIndices then st.out
        else
          triLoop vertices count clockwise begin_ maxIndices fuel
            (triEarStep clockwise begin_ st)
      else
        if st.iterationCount > 2 * st.queryList.length then st.out
        else
          triLoop vertices count clockwise begin_ maxIndices fuel
            (triSkipStep st)
    else st.out

/-- Fuel that strictly exceeds the number of iterations of the C loop: each
iteration either removes a ring entry (at most `count` times) or increments
`iterationCount`, which is bounded by `2 * size + 1 ≤ 2 * count + 1` between
removals. -/
def triFuel (count : ℕ) : ℕ := (count + 1) * (2 * count + 4) + 4

/-- Model of `triangulatePolygonEarClipping` (lines 311-396), returning the
list of emitted indices (the C function returns their number and writes them
to `out`). -/
def triangulatePolygonEarClipping (vertices : List TmVec) (count : ℕ)
    (clockwise : Bool) (queryCount : ℕ) (begin_ : ℕ) (maxIndices : ℕ) :
    List ℕ :=
  if count < 3 then []
  else
    let size := min count queryCount
    let ql := (List.range size).map (fun i => i % 65536)
    triLoop vertices count clockwise begin_ maxIndices (triFuel count)
      { queryList := ql, a := 0, b := 1, c := 2, current := 2,
        iterationCount := 0, out := [] }

/-- Clip-ring node, mirroring `ClipVertex` (lines 156-164).  The `flags`
bitmask is represented by the three `Bool` fields `intersect`, `exitFlag`
and `processed` (bits `CVF_INTERSECT`, `CVF_EXIT`, `CVF_PROCESSED`); the
`nextPoly` field of the C struct is never read or written by any function of
the source and is omitted. -/
structure ClipVertex where
  pos : TmVec
  next : ℕ
  prev : ℕ
  intersect : Bool
  exitFlag : Bool
  processed : Bool
  neighbor : ℕ
  alpha : ℚ
deriving DecidableEq, Repr

/-- The all-zero node: contents of slab memory cleared by `TMPO_MEMSET`.
Slab slots beyond `size` are uninitialized in C and are never read before
being written; the model gives them this fixed value. -/
def zeroClipVertex : ClipVertex :=
  { pos := ⟨0, 0⟩, next := 0, prev := 0, intersect := false,
    exitFlag := false, processed := false, neighbor := 0, alpha := 0 }

/-- Clip ring, mirroring `ClipVertices` (lines 176-181); the slab is a total
function updated pointwise. -/
structure ClipVertices where
  data : ℕ → ClipVertex
  originalSize : ℕ
  size : ℕ
  capacity : ℕ

/-- Pointwise update of a slab, modelling an assignment `data[i] = v`. -/
def updF (d : ℕ → ClipVertex) (i : ℕ) (v : ClipVertex) : ℕ → ClipVertex :=
  fun k => if k = i then v else d k

/-- Model of `clipPolyTransformData` (lines 400-421): positions and full
circular linkage on the first `n` slots, flags and auxiliary fields zeroed.
The `(tmpo_index)` casts on the link fields are dropped: they are the
identity for `n ≤ 2^16`, and larger rings are not representable by the
uint16 link fields at all. -/
def clipPolyTransformData (vertices : List TmVec) (maxClipVertices : ℕ) :
    ClipVertices :=
  let n := vertices.length
  { data := fun i =>
      if i < n then
        { pos := vertices.getD i ⟨0, 0⟩,
          next := if i = n - 1 then 0 else i + 1,
          prev := if i = 0 then n - 1 else i - 1,
          intersect := false, exitFlag := false, processed := false,
          neighbor := 0, alpha := 0 }
      else zeroClipVertex,
    originalSize := n, size := n, capacity := maxClipVertices }

/-- Model of the static helper `clipPolyCreateVertex` (lines 424-439):
append a node at slot `size` and splice it into the ring after `at_`.
The C pointer `oldNext = &data[ref->next]` is captured before any write;
the sequential updates below reproduce the same final slab for every
aliasing pattern of `at_`, `ref->next` and `size`. -/
def clipPolyCreateVertex (vs : ClipVertices) (at_ : ℕ) : ClipVertices :=
  let idx := vs.size
  let oldNextIdx := (vs.data at_).next
  let added :=
    { vs.data idx with
      prev := at_, next := oldNextIdx,
      intersect := false, exitFlag := false, processed := false }
  let d1 := updF vs.data idx added
  let d2 := updF d1 oldNextIdx { d1 oldNextIdx with prev := idx }
  let d3 := updF d2 at_ { d2 at_ with next := idx }
  { vs with data := d3, size := vs.size + 1 }

/-- Model of the static helper `clipPolyLineIntersectionFactor`
(lines 440-455), returning the `hit` flag and the factor `*t`.  The guard is
kept verbatim from the source: `cross < 0.000001f || cross > 0.000001f`,
which fails only when `cross` equals the epsilon constant exactly.  On a
miss the out-parameter `*t` is never written; the second component is then a
dummy `0` (the caller reads it only after a hit). -/
def clipPolyLineIntersectionFactor (a aDir b bDir : TmVec) : Bool × ℚ :=
  let cross := aDir.x * bDir.y - aDir.y * bDir.x
  if cross < 1 / 1000000 ∨ cross > 1 / 1000000 then
    let relx := a.x - b.x
    let rely := a.y - b.y
    (true, (bDir.x * rely - bDir.y * relx) / cross)
  else (false, 0)

/-- The combined hit test of `clipPolyFindIntersections` (lines 498-500):
both factor calls hit and both factors lie in `[0, 1]`.  In float arithmetic
a zero cross product makes the computed factor infinite or NaN, and the four
range comparisons are then all false; the two `≠ 0` conjuncts make that case
explicit over ℚ (where `x / 0 = 0` would otherwise pass the range check). -/
def clipPolyHitParams (aPrev aDir bPrev bDir : TmVec) : Option (ℚ × ℚ) :=
  let fa := clipPolyLineIntersectionFactor aPrev aDir bPrev bDir
  let fb := clipPolyLineIntersectionFactor bPrev bDir aPrev aDir
  if fa.1 = true ∧ fb.1 = true
     ∧ aDir.x * bDir.y - aDir.y * bDir.x ≠ 0
     ∧ bDir.x * aDir.y - bDir.y * aDir.x ≠ 0
     ∧ 0 ≤ fa.2 ∧ fa.2 ≤ 1 ∧ 0 ≤ fb.2 ∧ fb.2 ≤ 1 then
    some (fa.2, fb.2)
  else none

/-- Model of the static helper `clipPolyFindIntersectionIndex`
(lines 457-466): walk backward over the ring while the node is an
intersection with a larger alpha.  The C loop is unbounded; call sites pass
fuel `size`, which suffices whenever the backward chain reaches a
non-intersection node within `size` steps (established for all states
reachable from transformed input). -/
def clipPolyFindIntersectionIndex (vs : ClipVertices) :
    ℕ → ℕ → ℚ → ℕ
  | 0, at_, _ => at_
  | fuel + 1, at_, alpha =>
    let ref := vs.data at_
    if ref.intersect = true ∧ ref.alpha > alpha then
      clipPolyFindIntersectionIndex vs fuel ref.prev alpha
    else at_

/-- Model of the static helper `clipPolyCreateIntersection`
(lines 467-476). -/
def clipPolyCreateIntersection (vs : ClipVertices) (at_ : ℕ)
    (intersection : TmVec) (neighbor : ℕ) (alpha : ℚ) : ClipVertices :=
  let idx := vs.size
  let vs1 := clipPolyCreateVertex vs at_
  let node :=
    { vs1.data idx with
      pos := intersection, intersect := true,
      neighbor := neighbor, alpha := alpha }
  { vs1 with data := updF vs1.data idx node }

/-- Assignment `data[i].pos = p`, used by the degeneracy perturbation. -/
def setPos (vs : ClipVertices) (i : ℕ) (p : TmVec) : ClipVertices :=
  { vs with data := updF vs.data i { vs.data i with pos := p } }

/-- Loop state of `clipPolyFindIntersections`: the two rings and the edge
cursors `i`/`aPrevIndex` over ring A and `j`/`bPrevIndex` over ring B. -/
structure FindIntersectState where
  a : ClipVertices
  b : ClipVertices
  i : ℕ
  aPrevIndex : ℕ
  j : ℕ
  bPrevIndex : ℕ

/-- Model of the nested loops of `clipPolyFindIntersections`
(lines 478-546) by structural recursion on fuel; one unit of fuel is one
execution of the inner loop body (including degeneracy retries, which in C
`continue` without advancing `j`). -/
def clipPolyFindIntersectionsLoop :
    ℕ → FindIntersectState → ClipVertices × ClipVertices
  | 0, st => (st.a, st.b)
  | fuel + 1, st =>
    let aCount := st.a.originalSize
    let bCount := st.b.originalSize
    if st.i ≥ aCount then (st.a, st.b)
    else if st.j ≥ bCount then
      clipPolyFindIntersectionsLoop fuel
        { st with i := st.i + 1, aPrevIndex := st.i, j := 0 }
    else
      let aVertex := st.a.data st.i
      let aCurrent := aVertex.pos
      let aPrev := (st.a.data st.aPrevIndex).pos
      let bVertex := st.b.data st.j
      let bCurrent := bVertex.pos
      let bPrev := (st.b.data st.bPrevIndex).pos
      let aDir : TmVec := ⟨aCurrent.x - aPrev.x, aCurrent.y - aPrev.y⟩
      let bDir : TmVec := ⟨bCurrent.x - bPrev.x, bCurrent.y - bPrev.y⟩
      match clipPolyHitParams aPrev aDir bPrev bDir with
      | none =>
        clipPolyFindIntersectionsLoop fuel
          { st with j := st.j + 1, bPrevIndex := st.j }
      | some al =>
        let aAlpha := al.1
        let bAlpha := al.2
        if aAlpha ≤ 1 / 100000 then
          let v := (st.a.data st.aPrevIndex).pos
          let v2 : TmVec :=
            ⟨v.x - bDir.y * (1 / 10000), v.y + bDir.x * (1 / 10000)⟩
          clipPolyFindIntersectionsLoop fuel
            { st with a := setPos st.a st.aPrevIndex v2 }
        else if aAlpha ≥ 99999 / 100000 then
          let v := aVertex.pos
          let v2 : TmVec :=
            ⟨v.x - bDir.y * (1 / 10000), v.y + bDir.x * (1 / 10000)⟩
          clipPolyFindIntersectionsLoop fuel
            { st with a := setPos st.a st.i v2 }
        else if bAlpha ≤ 1 / 100000 then
          let v := (st.b.data st.bPrevIndex).pos
          let v2 : TmVec :=
            ⟨v.x - aDir.y * (1 / 10000), v.y + aDir.x * (1 / 10000)⟩
          clipPolyFindIntersectionsLoop fuel
            { st with b := setPos st.b st.bPrevIndex v2 }
        else if bAlpha ≥ 99999 / 100000 then
          let v := bVertex.pos
          let v2 : TmVec :=
            ⟨v.x - aDir.y * (1 / 10000), v.y + aDir.x * (1 / 10000)⟩
          clipPolyFindIntersectionsLoop fuel
            { st with b := setPos st.b st.j v2 }
        else
          let intersection : TmVec :=
            ⟨aPrev.x + aAlpha * aDir.x, aPrev.y + aAlpha * aDir.y⟩
          let aIndex :=
            clipPolyFindIntersectionIndex st.a st.a.size aVertex.prev aAlpha
          let bIndex :=
            clipPolyFindIntersectionIndex st.b st.b.size bVertex.prev bAlpha
          let aNeighbor := st.b.size
          let bNeighbor := st.a.size
          let a2 :=
            clipPolyCreateIntersection st.a aIndex intersection aNeighbor aAlpha
          let b2 :=
            clipPolyCreateIntersection st.b bIndex intersection bNeighbor bAlpha
          clipPolyFindIntersectionsLoop fuel
            { st with a := a2, b := b2, j := st.j + 1, bPrevIndex := st.j }

/-- Model of `clipPolyFindIntersections` (lines 478-546). -/
def clipPolyFindIntersections (a b : ClipVertices) (fuel : ℕ) :
    ClipVertices × ClipVertices :=
  clipPolyFindIntersectionsLoop fuel
    { a := a, b := b, i := 0, aPrevIndex := a.originalSize - 1,
      j := 0, bPrevIndex := b.originalSize - 1 }

/-- Model of the static helper `clipPolyPointInsidePoly` (lines 548-570):
horizontal-ray crossing-number test over the original ring.  The division
defining `alpha` has a nonzero denominator whenever the y-interval guard
holds, so the plain ℚ division is faithful there. -/
def clipPolyPointInsidePoly (poly : ClipVertices) (p : TmVec) : Bool :=
  let count := poly.originalSize
  let cn := (List.range count).foldl
    (fun cn i =>
      let prevIndex := if i = 0 then count - 1 else i - 1
      let cur := (poly.data i).pos
      let prev := (poly.data prevIndex).pos
      if (p.y ≤ prev.y ∧ p.y > cur.y) ∨ (p.y > prev.y ∧ p.y ≤ cur.y) then
        let alpha := (prev.y - p.y) / (prev.y - cur.y)
        let xIntersection := prev.x + alpha * (cur.x - prev.x)
        if p.x < xIntersection then cn + 1 else cn
      else cn)
    0
  decide (cn % 2 = 1)

/-- Follow direction selecting the Boolean operation (lines 174). -/
inductive ClipFollowDirection where
  | CFD_FORWARD
  | CFD_BACKWARD
deriving DecidableEq, Repr

/-- Assignment `data[i].flags |= CVF_EXIT`. -/
def setExit (vs : ClipVertices) (i : ℕ) : ClipVertices :=
  { vs with data := updF vs.data i { vs.data i with exitFlag := true } }

/-- The do-while walk of `clipPolyMarkEntryExitPointsSingle`
(lines 580-590): process node `i`, advance along `next`, stop after
returning to slot 0. -/
def clipPolyMarkLoop : ℕ → ClipVertices → Bool → ℕ → ClipVertices
  | 0, current, _, _ => current
  | fuel + 1, current, inside, i =>
    let entry := current.data i
    let current2 := if entry.intersect ∧ inside then setExit current i
                    else current
    let inside2 := if entry.intersect then !inside else inside
    let i2 := entry.next
    if i2 = 0 then current2
    else clipPolyMarkLoop fuel current2 inside2 i2

/-- Model of the static helper `clipPolyMarkEntryExitPointsSingle`
(lines 571-592). -/
def clipPolyMarkEntryExitPointsSingle (current other : ClipVertices)
    (dir : ClipFollowDirection) (fuel : ℕ) : ClipVertices :=
  if current.size > 0 then
    let inside0 := clipPolyPointInsidePoly other (current.data 0).pos
    let inside1 :=
      if dir ≠ ClipFollowDirection.CFD_FORWARD then !inside0 else inside0
    clipPolyMarkLoop fuel current inside1 (current.data 0).next
  else current

/-- Model of `clipPolyMarkEntryExitPoints` (lines 594-602). -/
def clipPolyMarkEntryExitPoints (a b : ClipVertices)
    (aDir bDir : ClipFollowDirection) (fuel : ℕ) :
    ClipVertices × ClipVertices :=
  (clipPolyMarkEntryExitPointsSingle a b aDir fuel,
   clipPolyMarkEntryExitPointsSingle b a bDir fuel)

/-- Result of emission, mirroring `ClipPolyResult` (lines 188-191). -/
structure ClipPolyResult where
  polygons : ℕ
  vertices : ℕ
deriving DecidableEq, Repr

/-- Polygon span descriptor, mirroring `ClipPolygonEntry` (lines 183-186);
the `vertices` pointer into the shared pool is modelled as the offset
`start`. -/
structure ClipPolygonEntry where
  start : ℕ
  size : ℕ
deriving DecidableEq, Repr

/-- Pointwise update of the caller's polygon descriptor array. -/
def updPoly (p : ℕ → ClipPolygonEntry) (i : ℕ)
    (f : ClipPolygonEntry → ClipPolygonEntry) : ℕ → ClipPolygonEntry :=
  fun k => if k = i then f (p k) else p k

/-- Machine state of `clipPolyEmitClippedPolygons`: the
`currentVertices`/`otherVertices` pointer pair is the Boolean `curIsA`. -/
structure EmitState where
  curIsA : Bool
  a : ClipVertices
  b : ClipVertices
  i : ℕ
  currentPoly : ℕ
  polyCount : ℕ
  put : ℕ
  polys : ℕ → ClipPolygonEntry
  pool : ℕ → TmVec
  hasIntersections : Bool

/-- Everything `clipPolyEmitClippedPolygons` leaves behind: the caller's
polygon array and vertex pool, both rings (whose `processed`/`exitFlag`
bits it mutated) and the returned `ClipPolyResult`. -/
structure EmitResult where
  polys : ℕ → ClipPolygonEntry
  pool : ℕ → TmVec
  a : ClipVertices
  b : ClipVertices
  result : ClipPolyResult

/-- The ring `currentVertices` points at. -/
def EmitState.cur (st : EmitState) : ClipVertices :=
  if st.curIsA then st.a else st.b

/-- Assignment `data[i].flags |= CVF_PROCESSED` on the current ring. -/
def EmitState.markProcessed (st : EmitState) (i : ℕ) : EmitState :=
  if st.curIsA then
    { st with a := { st.a with
        data := updF st.a.data i { st.a.data i with processed := true } } }
  else
    { st with b := { st.b with
        data := updF st.b.data i { st.b.data i with processed := true } } }

/-- The early-return value built at every out-of-memory site of
`clipPolyEmitClippedPolygons`: `result.polygons = polyCount` and
`result.vertices = (tmpo_index)put`, with the state left as it is (in
particular without finalizing `polygons[currentPoly].size`). -/
def truncResult (st : EmitState) : EmitResult :=
  ⟨st.polys, st.pool, st.a, st.b, ⟨st.polyCount, st.put % 65536⟩⟩

/-- One directional run of the emission traversal (the inner do-while at
lines 654-665 resp. 667-678): step along `prev` (when `exitDir`) or `next`,
mark each node processed and append its position to the pool, stopping
after the first intersection node (which is also emitted). -/
def emitRun (maxCount : ℕ) (exitDir : Bool) :
    ℕ → EmitState → Sum EmitResult EmitState
  | 0, st => Sum.inl (truncResult st)
  | fuel + 1, st =>
    let cur := st.cur.data st.i
    let i2 := if exitDir then cur.prev else cur.next
    let st1 := EmitState.markProcessed { st with i := i2 } i2
    let node := st1.cur.data i2
    if st1.put + 1 > maxCount then Sum.inl (truncResult st1)
    else
      let st2 := { st1 with
        pool := fun k => if k = st1.put then node.pos else st1.pool k,
        put := st1.put + 1 }
      if node.intersect then Sum.inr st2
      else emitRun maxCount exitDir fuel st2

/-- The polygon traversal (outer do-while at lines 652-689): run a
directional segment, jump to the `neighbor` node on the other ring, swap
rings, and repeat until back at the starting node on the starting ring. -/
def emitTrav (maxCount : ℕ) (start : ℕ) (startIsA : Bool) :
    ℕ → EmitState → Sum EmitResult EmitState
  | 0, st => Sum.inl (truncResult st)
  | fuel + 1, st =>
    let exitDir := (st.cur.data st.i).exitFlag
    match emitRun maxCount exitDir fuel st with
    | Sum.inl r => Sum.inl r
    | Sum.inr st1 =>
      let nb := (st1.cur.data st1.i).neighbor
      let st2 := EmitState.markProcessed
        { st1 with curIsA := !st1.curIsA, i := nb } nb
      if st2.i = start ∧ st2.curIsA = startIsA then Sum.inr st2
      else emitTrav maxCount start startIsA fuel st2

/-- The outer scan of `clipPolyEmitClippedPolygons` (lines 631-693): walk
ring A along `next` until returning to slot 0; at each unprocessed
intersection node close the previous polygon span, start a new one (with
the `maxPolygons` check of lines 642-647) and run the traversal. -/
def emitOuter (maxPolygons maxCount : ℕ) :
    ℕ → EmitState → Sum EmitResult EmitState
  | 0, st => Sum.inl (truncResult st)
  | fuel + 1, st =>
    if st.i = 0 then Sum.inr st
    else
      let cur := st.cur.data st.i
      if cur.intersect ∧ ¬cur.processed then
        let st1 := st.markProcessed st.i
        let st2 := { st1 with hasIntersections := true }
        let closePrev :=
          updPoly st2.polys st2.currentPoly
            (fun e => { e with size := st2.put - e.start })
        let st3 :=
          if st2.currentPoly < st2.polyCount then { st2 with polys := closePrev }
          else st2
        if st3.polyCount + 1 > maxPolygons then Sum.inl (truncResult st3)
        else
          let st4 :=
            { st3 with
              currentPoly := st3.polyCount, polyCount := st3.polyCount + 1 }
          let openNew :=
            updPoly st4.polys st4.currentPoly
              (fun e => { e with start := st4.put })
          let st5 := { st4 with polys := openNew }
          match emitTrav maxCount st5.i st5.curIsA fuel st5 with
          | Sum.inl r => Sum.inl r
          | Sum.inr st6 =>
            emitOuter maxPolygons maxCount fuel
              { st6 with i := (st6.cur.data st6.i).next }
      else
        emitOuter maxPolygons maxCount fuel { st with i := cur.next }

/-- The containment fallback of `clipPolyEmitClippedPolygons`
(lines 695-730), reached when the scan found no intersections: emit A's
original loop if `A[0]` is inside B, else B's original loop if ring B is
nonempty and `B[0]` is inside A, else nothing. -/
def emitFallback (maxPolygons maxCount : ℕ) (st : EmitState) :
    Sum EmitResult EmitState :=
  if st.hasIntersections then Sum.inr st
  else if clipPolyPointInsidePoly st.b (st.a.data 0).pos then
    if st.polyCount + 1 > maxPolygons then Sum.inl (truncResult st)
    else
      let st1 :=
        { st with
          currentPoly := st.polyCount, polyCount := st.polyCount + 1 }
      let openNew :=
        updPoly st1.polys st1.currentPoly (fun e => { e with start := st1.put })
      let st2 := { st1 with polys := openNew }
      let size2 := min maxCount st.a.originalSize
      let pool2 :=
        fun k => if k < size2 then (st.a.data k).pos else st2.pool k
      Sum.inr { st2 with pool := pool2, put := size2 }
  else if st.b.size ≠ 0 ∧ clipPolyPointInsidePoly st.a (st.b.data 0).pos then
    if st.polyCount + 1 > maxPolygons then Sum.inl (truncResult st)
    else
      let st1 :=
        { st with
          currentPoly := st.polyCount, polyCount := st.polyCount + 1 }
      let openNew :=
        updPoly st1.polys st1.currentPoly (fun e => { e with start := st1.put })
      let st2 := { st1 with polys := openNew }
      let size2 := min maxCount st.b.originalSize
      let pool2 :=
        fun k => if k < size2 then (st.b.data k).pos else st2.pool k
      Sum.inr { st2 with pool := pool2, put := size2 }
  else Sum.inr st

/-- The function epilogue (lines 731-737): finalize the size of the last
started polygon span and build the result. -/
def emitFinish (maxPolygons maxCount : ℕ) (st : EmitState) : EmitResult :=
  match emitFallback maxPolygons maxCount st with
  | Sum.inl r => r
  | Sum.inr st1 =>
    let closeLast :=
      updPoly st1.polys st1.currentPoly
        (fun e => { e with size := st1.put - e.start })
    let st2 :=
      if st1.currentPoly < st1.polyCount then { st1 with polys := closeLast }
      else st1
    ⟨st2.polys, st2.pool, st2.a, st2.b, ⟨st2.polyCount, st2.put % 65536⟩⟩

/-- Model of `clipPolyEmitClippedPolygons` (lines 604-738). -/
def clipPolyEmitClippedPolygons (a b : ClipVertices)
    (polys0 : ℕ → ClipPolygonEntry) (maxPolygons : ℕ) (pool0 : ℕ → TmVec)
    (maxCount : ℕ) (fuel : ℕ) : EmitResult :=
  if a.size < 1 then ⟨polys0, pool0, a, b, ⟨0, 0⟩⟩
  else
    let st0 : EmitState :=
      { curIsA := true, a := a, b := b, i := (a.data 0).next,
        currentPoly := 1, polyCount := 0, put := 0, polys := polys0,
        pool := pool0, hasIntersections := false }
    match emitOuter maxPolygons maxCount fuel st0 with
    | Sum.inl r => r
    | Sum.inr st => emitFinish maxPolygons maxCount st

/-- Model of the convenience wrapper `clipPolyEmitClippedPolygon`
(lines 740-746): a zero-initialized single entry, returning its size. -/
def clipPolyEmitClippedPolygon (a b : ClipVertices) (pool0 : ℕ → TmVec)
    (maxCount : ℕ) (fuel : ℕ) : ℕ :=
  ((clipPolyEmitClippedPolygons a b (fun _ => ⟨0, 0⟩) 1 pool0 maxCount
      fuel).polys 0).size

/-- The full clipping pipeline: transform both inputs, find intersections,
mark entry/exit points, emit. -/
def clipPipeline (va vb : List TmVec) (cap : ℕ)
    (aDir bDir : ClipFollowDirection) (polys0 : ℕ → ClipPolygonEntry)
    (maxPolygons : ℕ) (pool0 : ℕ → TmVec) (maxCount : ℕ) (fuel : ℕ) :
    EmitResult :=
  let a0 := clipPolyTransformData va cap
  let b0 := clipPolyTransformData vb cap
  let p := clipPolyFindIntersections a0 b0 fuel
  let m := clipPolyMarkEntryExitPoints p.1 p.2 aDir bDir fuel
  clipPolyEmitClippedPolygons m.1 m.2 polys0 maxPolygons pool0 maxCount fuel

/-- Ring A of the coincident-intersection scenario: a triangle whose bottom
edge runs from `(0,0)` to `(10,0)`. -/
def coincA : ClipVertices := clipPolyTransformData [⟨0,0⟩, ⟨10,0⟩, ⟨5,10⟩] 16

/-- Ring B of the coincident-intersection scenario: a self-intersecting
bowtie whose two slanted edges both cross A's bottom edge at `(5,0)`. -/
def coincB : ClipVertices :=
  clipPolyTransformData [⟨4,-2⟩, ⟨6,2⟩, ⟨4,2⟩, ⟨6,-2⟩] 16

/-- Emission run that exhausts a 2-slot vertex pool in the middle of the
first output polygon: intersection of the overlapping squares `[0,2]²` and
`[1,3]²` needs 4 output vertices.  The caller's polygon descriptor array is
pre-filled with the sentinel `⟨77, 99⟩` so that unwritten fields are
visible. -/
def truncRun : EmitResult :=
  clipPipeline [⟨0,0⟩, ⟨2,0⟩, ⟨2,2⟩, ⟨0,2⟩] [⟨1,1⟩, ⟨3,1⟩, ⟨3,3⟩, ⟨1,3⟩] 16
    ClipFollowDirection.CFD_FORWARD ClipFollowDirection.CFD_FORWARD
    (fun _ => ⟨77, 99⟩) 4 (fun _ => ⟨0,0⟩) 2 200

/-- The same emission with a different sentinel in the descriptor array. -/
def truncRunB : EmitResult :=
  clipPipeline [⟨0,0⟩, ⟨2,0⟩, ⟨2,2⟩, ⟨0,2⟩] [⟨1,1⟩, ⟨3,1⟩, ⟨3,3⟩, ⟨1,3⟩] 16
    ClipFollowDirection.CFD_FORWARD ClipFollowDirection.CFD_FORWARD
    (fun _ => ⟨77, 55⟩) 4 (fun _ => ⟨0,0⟩) 2 200

/-- Disjoint unit squares, `A ∖ B` follow directions `(BACKWARD, FORWARD)`. -/
def disjointDiffRun : EmitResult :=
  clipPipeline [⟨0,0⟩, ⟨1,0⟩, ⟨1,1⟩, ⟨0,1⟩] [⟨5,0⟩, ⟨6,0⟩, ⟨6,1⟩, ⟨5,1⟩] 16
    ClipFollowDirection.CFD_BACKWARD ClipFollowDirection.CFD_FORWARD
    (fun _ => ⟨77, 99⟩) 4 (fun _ => ⟨0,0⟩) 16 200

/-- Containment scenario of the spec: B strictly inside A, intersection
directions `(FORWARD, FORWARD)`. -/
def containRun : EmitResult :=
  clipPipeline [⟨0,0⟩, ⟨4,0⟩, ⟨4,4⟩, ⟨0,4⟩] [⟨1,1⟩, ⟨2,1⟩, ⟨2,2⟩, ⟨1,2⟩] 16
    ClipFollowDirection.CFD_FORWARD ClipFollowDirection.CFD_FORWARD
    (fun _ => ⟨77, 99⟩) 4 (fun _ => ⟨0,0⟩) 16 200


/-- Bounded check that the `next` walk from slot `i` of a ring reaches
slot 0 while meeting only non-intersection nodes: exactly the nodes the
outer scan of `clipPolyEmitClippedPolygons` visits when the find phase
inserted nothing. -/
def walkCleanToZero (a : ClipVertices) : ℕ → ℕ → Bool
  | 0, _ => false
  | fuel + 1, i =>
    if i = 0 then true
    else !(a.data i).intersect && walkCleanToZero a fuel ((a.data i).next)

/-! ### Lemmas about the shoelace sum (orientation predicate) -/

/-- The closing term added when a single vertex is appended to a path. -/
def closeTerm (l : List TmVec) (p : TmVec) : ℚ :=
  match l.getLast? with
  | none => 0
  | some g => crossZ g p

theorem closeTerm_cons_cons (x y : TmVec) (s : List TmVec) (p : TmVec) :
    closeTerm (x :: y :: s) p = closeTerm (y :: s) p := by
  simp [closeTerm]

theorem adjSum_append_single (l : List TmVec) (p : TmVec) :
    adjSum (l ++ [p]) = adjSum l + closeTerm l p := by
  induction l with
  | nil => simp [adjSum, closeTerm]
  | cons x t ih =>
    cases t with
    | nil => simp [adjSum, closeTerm, crossZ]
    | cons y s =>
      have h1 : (x :: y :: s) ++ [p] = x :: ((y :: s) ++ [p]) := rfl
      rw [h1]
      show crossZ x y + adjSum ((y :: s) ++ [p]) = _
      rw [ih, closeTerm_cons_cons]
      show _ = crossZ x y + adjSum (y :: s) + closeTerm (y :: s) p
      ring

theorem adjSum_reverse (l : List TmVec) : adjSum l.reverse = -adjSum l := by
  induction l with
  | nil => simp [adjSum]
  | cons x t ih =>
    cases t with
    | nil => simp [adjSum]
    | cons y s =>
      rw [List.reverse_cons, adjSum_append_single, ih]
      have h2 : closeTerm (y :: s).reverse x = crossZ y x := by
        simp [closeTerm, List.getLast?_reverse]
      rw [h2]
      show _ = -(crossZ x y + adjSum (y :: s))
      have h3 : crossZ y x = -crossZ x y := by simp [crossZ]; ring
      rw [h3]; ring

theorem shoelaceSum_eq_of_getLast (l : List TmVec) (g : TmVec)
    (h : l.getLast? = some g) : shoelaceSum l = adjSum (g :: l) := by
  unfold shoelaceSum
  rw [h]

theorem closeTerm_eq (l : List TmVec) (g p : TmVec)
    (h : l.getLast? = some g) : closeTerm l p = crossZ g p := by
  simp [closeTerm, h]

theorem shoelaceSum_reverse (l : List TmVec) :
    shoelaceSum l.reverse = -shoelaceSum l := by
  cases l with
  | nil => simp [shoelaceSum]
  | cons a t =>
    have hlast : ((a :: t).reverse).getLast? = some a := by
      rw [List.getLast?_reverse]; rfl
    rw [shoelaceSum_eq_of_getLast _ a hlast]
    have hsplit : a :: (a :: t).reverse = (a :: t.reverse) ++ [a] := by
      rw [List.reverse_cons, List.cons_append]
    rw [hsplit, adjSum_append_single]
    have hrev2 : a :: t.reverse = (t ++ [a]).reverse := by
      rw [List.reverse_append]; rfl
    rw [hrev2, adjSum_reverse, adjSum_append_single]
    cases t with
    | nil =>
      simp [shoelaceSum, adjSum, closeTerm, crossZ]
      ring
    | cons h s =>
      cases hgl : (h :: s).getLast? with
      | none => simp at hgl
      | some g =>
        rw [shoelaceSum_eq_of_getLast (a :: h :: s) g
          (by rw [List.getLast?_cons_cons]; exact hgl)]
        have hctg : closeTerm ((h :: s) ++ [a]).reverse a = crossZ h a := by
          refine closeTerm_eq _ h a ?_
          rw [List.getLast?_reverse]
          rfl
        rw [hctg]
        have hclose : closeTerm (h :: s) a = crossZ g a := by
          simp [closeTerm, hgl]
        rw [hclose]
        have hadj : adjSum (g :: a :: h :: s)
            = crossZ g a + (crossZ a h + adjSum (h :: s)) := rfl
        rw [hadj]
        have h4 : crossZ h a = -(crossZ a h) := by unfold crossZ; ring
        rw [h4]
        ring

/-! ### Claim theorems: C8, C2, C5, C10 and the concrete counterexamples -/

/-- C8 counterexample: for the degenerate collinear loop
`[(0,0),(1,0),(2,0)]` the shoelace sum is `0`, and `isPolygonClockwise`
returns `true` for the loop and for its reversal alike, so reversing does
NOT flip the returned flag. -/
theorem C8_counterexample :
    ¬ (isPolygonClockwise ([⟨0,0⟩, ⟨1,0⟩, ⟨2,0⟩] : List TmVec).reverse
        = !isPolygonClockwise [⟨0,0⟩, ⟨1,0⟩, ⟨2,0⟩]) := by decide

/-- C8 amended: reversing the vertex loop flips the result of
`isPolygonClockwise` whenever the loop's shoelace sum is nonzero; for
zero-sum (degenerate) loops both orders return `true` ("clockwise"),
because the predicate is `sum >= 0` and the reversed sum is the negation. -/
theorem C8_amended (l : List TmVec) :
    (shoelaceSum l ≠ 0 →
      isPolygonClockwise l.reverse = !isPolygonClockwise l) ∧
    (shoelaceSum l = 0 →
      isPolygonClockwise l.reverse = true ∧ isPolygonClockwise l = true) := by
  have hrev := shoelaceSum_reverse l
  constructor
  · intro hne
    unfold isPolygonClockwise
    rw [hrev]
    by_cases h0 : 0 ≤ shoelaceSum l
    · have h1 : ¬ (0 ≤ -shoelaceSum l) := by
        intro hc
        exact hne (le_antisymm (by linarith) h0)
      rw [decide_eq_true h0, decide_eq_false h1]; rfl
    · have h1 : 0 ≤ -shoelaceSum l := by
        push_neg at h0; linarith
      rw [decide_eq_true h1, decide_eq_false h0]; rfl
  · intro hz
    unfold isPolygonClockwise
    rw [hrev, hz]
    norm_num

/-- C8 witness: a nonzero-area triangle, instantiating the amended claim. -/
theorem C8_witness :
    isPolygonClockwise ([⟨0,0⟩, ⟨1,0⟩, ⟨0,1⟩] : List TmVec).reverse
      = !isPolygonClockwise [⟨0,0⟩, ⟨1,0⟩, ⟨0,1⟩] :=
  (C8_amended [⟨0,0⟩, ⟨1,0⟩, ⟨0,1⟩]).1 (by decide)

/-- C2 counterexample: for the parallel directions `aDir = (1,0)`,
`bDir = (2,0)` the cross product is `0`, whose absolute value is below the
epsilon `1e-6`, yet `clipPolyLineIntersectionFactor` reports a hit (the
source guard `cross < 1e-6 || cross > 1e-6` only fails at `cross = 1e-6`
exactly). -/
theorem C2_counterexample :
    |(1 : ℚ) * 0 - 0 * 2| < 1 / 1000000 ∧
    (clipPolyLineIntersectionFactor ⟨0,0⟩ ⟨1,0⟩ ⟨0,0⟩ ⟨2,0⟩).1 = true := by
  constructor
  · norm_num
  · rfl

/-- C2 amended: `clipPolyLineIntersectionFactor` reports NO hit exactly when
the cross product equals the epsilon constant `1e-6`; in particular parallel
edges (cross product `0`) DO get a hit.  The pair is nevertheless skipped by
`clipPolyFindIntersections` when the cross product is zero, because the
factor is then computed by a division by zero, which under IEEE float
semantics fails the `[0,1]` range checks of the hit guard
(`clipPolyHitParams`), so no intersection node is inserted for it. -/
theorem C2_amended (a aDir b bDir : TmVec) :
    ((clipPolyLineIntersectionFactor a aDir b bDir).1 = false ↔
      aDir.x * bDir.y - aDir.y * bDir.x = 1 / 1000000) ∧
    (aDir.x * bDir.y - aDir.y * bDir.x = 0 →
      clipPolyHitParams a aDir b bDir = none) := by
  constructor
  · simp only [clipPolyLineIntersectionFactor]
    by_cases h : aDir.x * bDir.y - aDir.y * bDir.x < 1 / 1000000
        ∨ aDir.x * bDir.y - aDir.y * bDir.x > 1 / 1000000
    · rw [if_pos h]
      constructor
      · intro hc
        simp at hc
      · intro he
        exfalso
        rcases h with h | h <;> rw [he] at h <;> exact absurd h (lt_irrefl _)
    · rw [if_neg h]
      push_neg at h
      constructor
      · intro _
        exact le_antisymm h.2 h.1
      · intro _
        rfl
  · intro hz
    simp only [clipPolyHitParams]
    split
    · rename_i hcond
      exact absurd hz hcond.2.2.1
    · rfl

/-- C2 witness: the amended claim applied to the parallel pair of the
counterexample. -/
theorem C2_witness :
    clipPolyHitParams ⟨0,0⟩ ⟨1,0⟩ ⟨0,0⟩ ⟨2,0⟩ = none :=
  (C2_amended ⟨0,0⟩ ⟨1,0⟩ ⟨0,0⟩ ⟨2,0⟩).2 (by norm_num)

/-- C10: if ring A is empty, `clipPolyEmitClippedPolygons` returns
`{polygons := 0, vertices := 0}` at once, for every ring B and with the
caller's polygon array and vertex pool returned untouched. -/
theorem C10_empty_ring_a (a b : ClipVertices) (polys0 : ℕ → ClipPolygonEntry)
    (maxPolygons : ℕ) (pool0 : ℕ → TmVec) (maxCount fuel : ℕ)
    (h : a.size < 1) :
    clipPolyEmitClippedPolygons a b polys0 maxPolygons pool0 maxCount fuel
      = ⟨polys0, pool0, a, b, ⟨0, 0⟩⟩ := by
  unfold clipPolyEmitClippedPolygons
  rw [if_pos h]

/-- C10 witness: an empty transformed ring against a nonempty ring. -/
theorem C10_witness :
    (clipPolyTransformData [] 4).size < 1 ∧
    clipPolyEmitClippedPolygons (clipPolyTransformData [] 4) coincB
        (fun _ => ⟨77, 99⟩) 4 (fun _ => ⟨0,0⟩) 8 100
      = ⟨(fun _ => ⟨77, 99⟩), (fun _ => ⟨0,0⟩),
         clipPolyTransformData [] 4, coincB, ⟨0, 0⟩⟩ :=
  ⟨by decide,
   C10_empty_ring_a (clipPolyTransformData [] 4) coincB _ 4 _ 8 100
     (by decide)⟩

/-- C5: concrete run in which `clipPolyEmitClippedPolygons` exhausts a
2-slot vertex pool in the middle of the first output polygon (intersection
of the squares `[0,2]²` and `[1,3]²`, which needs 4 vertices).  The function
returns `polygons = 1` and `vertices = 2`, but the counted polygon's `size`
field still holds the caller's sentinel (99 in one run, 55 in the other):
the early return at lines 658-663 skips the span finalization of line 731,
contradicting the claim (and the header's own documentation, lines 216-218,
which promises that each polygon's vertex count is stored). -/
theorem C5_truncation_skips_finalization :
    truncRun.result = ⟨1, 2⟩ ∧
    truncRun.polys 0 = ⟨0, 99⟩ ∧
    truncRunB.polys 0 = ⟨0, 55⟩ := by
  refine ⟨?_, ?_, ?_⟩ <;> rfl

/-- C3 counterexample: the simple polygon
`[(0,0),(1,0),(2,0),(2,2),(0,2)]` (a rectangle with an extra collinear
vertex on its bottom edge) has `n = 5`, correctly asserted clockwise flag
(`isPolygonClockwise` returns `true`), a scratch ring of length 5 and an
output buffer of capacity `9 = 3*(5-2)`, yet the triangulator emits only 6
indices: after two ears are clipped, the already-removed vertex `(1,0)`
lies on the boundary of every remaining candidate triangle, the closed
point-in-triangle test keeps rejecting them (the rejection loop runs over
all ORIGINAL vertices, lines 299-306), and the liveness guard of line 388
aborts. -/
theorem C3_counterexample :
    isPolygonClockwise [⟨0,0⟩, ⟨1,0⟩, ⟨2,0⟩, ⟨2,2⟩, ⟨0,2⟩] = true ∧
    (triangulatePolygonEarClipping [⟨0,0⟩, ⟨1,0⟩, ⟨2,0⟩, ⟨2,2⟩, ⟨0,2⟩]
        5 true 5 0 9).length = 6 ∧ (6 : ℕ) ≠ 3 * (5 - 2) := by
  refine ⟨by decide, by decide, by decide⟩

/-- C4 counterexample: running `clipPolyFindIntersections` on the
transformed rings `coincA` (triangle) and `coincB` (bowtie crossing A's
bottom edge twice at the same interior point `(5,0)`) inserts two
intersection nodes 3 and 4 on the same original edge of A, adjacent in ring
order (`next` of node 3 is node 4), whose alphas are both `1/2`: the
walk of `clipPolyFindIntersectionIndex` only skips predecessors with
STRICTLY larger alpha, so an equal-alpha node is inserted after its twin
and the sequence is not strictly ascending. -/
theorem C4_counterexample :
    ((clipPolyFindIntersections coincA coincB 100).1.data 3).intersect = true ∧
    ((clipPolyFindIntersections coincA coincB 100).1.data 3).next = 4 ∧
    ((clipPolyFindIntersections coincA coincB 100).1.data 4).intersect = true ∧
    ((clipPolyFindIntersections coincA coincB 100).1.data 3).alpha = 1 / 2 ∧
    ((clipPolyFindIntersections coincA coincB 100).1.data 4).alpha = 1 / 2 ∧
    ¬ (((clipPolyFindIntersections coincA coincB 100).1.data 3).alpha <
        ((clipPolyFindIntersections coincA coincB 100).1.data 4).alpha) := by
  refine ⟨by decide, by decide, by decide, by decide, by decide, by decide⟩

/-- C6 counterexample: for the disjoint unit squares `[0,1]²` and
`[5,6]×[0,1]` (no edge intersections, neither inside the other), the
`A ∖ B` pipeline (follow directions BACKWARD, FORWARD) emits NO polygon at
all — `clipPolyEmitClippedPolygons` returns `{polygons := 0, vertices := 0}`
and leaves the caller's descriptor array untouched — instead of emitting
polygon A as the claim states. -/
theorem C6_counterexample :
    disjointDiffRun.result = ⟨0, 0⟩ ∧
    disjointDiffRun.polys 0 = ⟨77, 99⟩ := by
  refine ⟨rfl, rfl⟩

/-! ### Field characterization of the ring operations -/

theorem updF_eq (d : ℕ → ClipVertex) (i : ℕ) (v : ClipVertex) :
    updF d i v i = v := by
  simp [updF]

theorem updF_ne (d : ℕ → ClipVertex) (i : ℕ) (v : ClipVertex) (k : ℕ)
    (h : k ≠ i) : updF d i v k = d k := by
  simp [updF, h]

theorem createVertex_size (vs : ClipVertices) (at_ : ℕ) :
    (clipPolyCreateVertex vs at_).size = vs.size + 1 := rfl

theorem createVertex_originalSize (vs : ClipVertices) (at_ : ℕ) :
    (clipPolyCreateVertex vs at_).originalSize = vs.originalSize := rfl

theorem updF_apply (d : ℕ → ClipVertex) (i : ℕ) (v : ClipVertex) (k : ℕ) :
    updF d i v k = if k = i then v else d k := rfl

/-- An update that does not change the field read by `f` leaves every read
through `f` unchanged. -/
theorem updF_keep {α : Type} (f : ClipVertex → α) (d : ℕ → ClipVertex)
    (i : ℕ) (v : ClipVertex) (k : ℕ) (h : f v = f (d i)) :
    f (updF d i v k) = f (d k) := by
  rw [updF_apply]
  split_ifs with hk
  · rw [hk]
    exact h
  · rfl

theorem setNext_intersect (x : ClipVertex) (e : ℕ) :
    ({ x with next := e } : ClipVertex).intersect = x.intersect := rfl
theorem setNext_pos (x : ClipVertex) (e : ℕ) :
    ({ x with next := e } : ClipVertex).pos = x.pos := rfl
theorem setNext_neighbor (x : ClipVertex) (e : ℕ) :
    ({ x with next := e } : ClipVertex).neighbor = x.neighbor := rfl
theorem setNext_alpha (x : ClipVertex) (e : ℕ) :
    ({ x with next := e } : ClipVertex).alpha = x.alpha := rfl
theorem setNext_prev (x : ClipVertex) (e : ℕ) :
    ({ x with next := e } : ClipVertex).prev = x.prev := rfl
theorem setPrev_intersect (x : ClipVertex) (e : ℕ) :
    ({ x with prev := e } : ClipVertex).intersect = x.intersect := rfl
theorem setPrev_pos (x : ClipVertex) (e : ℕ) :
    ({ x with prev := e } : ClipVertex).pos = x.pos := rfl
theorem setPrev_neighbor (x : ClipVertex) (e : ℕ) :
    ({ x with prev := e } : ClipVertex).neighbor = x.neighbor := rfl
theorem setPrev_alpha (x : ClipVertex) (e : ℕ) :
    ({ x with prev := e } : ClipVertex).alpha = x.alpha := rfl
theorem setPrev_next (x : ClipVertex) (e : ℕ) :
    ({ x with prev := e } : ClipVertex).next = x.next := rfl
theorem addedNode_pos (x : ClipVertex) (p n : ℕ) :
    ({ x with
       prev := p, next := n, intersect := false, exitFlag := false,
       processed := false } : ClipVertex).pos = x.pos := rfl
theorem addedNode_neighbor (x : ClipVertex) (p n : ℕ) :
    ({ x with
       prev := p, next := n, intersect := false, exitFlag := false,
       processed := false } : ClipVertex).neighbor = x.neighbor := rfl
theorem addedNode_alpha (x : ClipVertex) (p n : ℕ) :
    ({ x with
       prev := p, next := n, intersect := false, exitFlag := false,
       processed := false } : ClipVertex).alpha = x.alpha := rfl

/-- The splice of `clipPolyCreateVertex` changes only `prev`/`next` fields
of preexisting nodes; the node at slot `size` gets its flags cleared and
keeps the slab's old (junk) `pos`, `neighbor`, `alpha`. -/
theorem createVertex_intersect (vs : ClipVertices) (at_ k : ℕ) :
    ((clipPolyCreateVertex vs at_).data k).intersect
      = if k = vs.size then false else (vs.data k).intersect := by
  simp only [clipPolyCreateVertex]
  rw [updF_keep ClipVertex.intersect _ _ _ _ (setNext_intersect _ _),
    updF_keep ClipVertex.intersect _ _ _ _ (setPrev_intersect _ _),
    updF_apply, apply_ite ClipVertex.intersect]

theorem createVertex_pos (vs : ClipVertices) (at_ k : ℕ) :
    ((clipPolyCreateVertex vs at_).data k).pos = (vs.data k).pos := by
  simp only [clipPolyCreateVertex]
  rw [updF_keep ClipVertex.pos _ _ _ _ (setNext_pos _ _),
    updF_keep ClipVertex.pos _ _ _ _ (setPrev_pos _ _),
    updF_keep ClipVertex.pos _ _ _ _ (addedNode_pos _ _ _)]

theorem createVertex_neighbor (vs : ClipVertices) (at_ k : ℕ) :
    ((clipPolyCreateVertex vs at_).data k).neighbor
      = (vs.data k).neighbor := by
  simp only [clipPolyCreateVertex]
  rw [updF_keep ClipVertex.neighbor _ _ _ _ (setNext_neighbor _ _),
    updF_keep ClipVertex.neighbor _ _ _ _ (setPrev_neighbor _ _),
    updF_keep ClipVertex.neighbor _ _ _ _ (addedNode_neighbor _ _ _)]

theorem createVertex_alpha (vs : ClipVertices) (at_ k : ℕ) :
    ((clipPolyCreateVertex vs at_).data k).alpha = (vs.data k).alpha := by
  simp only [clipPolyCreateVertex]
  rw [updF_keep ClipVertex.alpha _ _ _ _ (setNext_alpha _ _),
    updF_keep ClipVertex.alpha _ _ _ _ (setPrev_alpha _ _),
    updF_keep ClipVertex.alpha _ _ _ _ (addedNode_alpha _ _ _)]

/-- Final `next` links after a splice: `at_` now points at the new tail
node, the tail node points at `at_`'s old successor, everything else is
unchanged. -/
theorem createVertex_next (vs : ClipVertices) (at_ k : ℕ) :
    ((clipPolyCreateVertex vs at_).data k).next
      = if k = at_ then vs.size
        else if k = vs.size then (vs.data at_).next
        else (vs.data k).next := by
  simp only [clipPolyCreateVertex, updF_apply, apply_ite ClipVertex.next]
  split_ifs <;> first | rfl | omega | (subst_vars; rfl)

/-- Final `prev` links after a splice: `at_`'s old successor now points
back at the new tail node, the tail node points back at `at_`, everything
else is unchanged. -/
theorem createVertex_prev (vs : ClipVertices) (at_ k : ℕ) :
    ((clipPolyCreateVertex vs at_).data k).prev
      = if k = (vs.data at_).next then vs.size
        else if k = vs.size then at_
        else (vs.data k).prev := by
  simp only [clipPolyCreateVertex, updF_apply, apply_ite ClipVertex.prev]
  split_ifs <;> first | rfl | omega | (subst_vars; rfl)

theorem createIntersection_size (vs : ClipVertices) (at_ : ℕ) (p : TmVec)
    (nb : ℕ) (al : ℚ) :
    (clipPolyCreateIntersection vs at_ p nb al).size = vs.size + 1 := rfl

theorem createIntersection_originalSize (vs : ClipVertices) (at_ : ℕ)
    (p : TmVec) (nb : ℕ) (al : ℚ) :
    (clipPolyCreateIntersection vs at_ p nb al).originalSize
      = vs.originalSize := rfl

theorem createIntersection_intersect (vs : ClipVertices) (at_ : ℕ) (p : TmVec)
    (nb : ℕ) (al : ℚ) (k : ℕ) :
    ((clipPolyCreateIntersection vs at_ p nb al).data k).intersect
      = if k = vs.size then true else (vs.data k).intersect := by
  simp only [clipPolyCreateIntersection, updF]
  by_cases h1 : k = vs.size
  · simp [h1]
  · simp [h1, createVertex_intersect]

theorem createIntersection_pos (vs : ClipVertices) (at_ : ℕ) (p : TmVec)
    (nb : ℕ) (al : ℚ) (k : ℕ) :
    ((clipPolyCreateIntersection vs at_ p nb al).data k).pos
      = if k = vs.size then p else (vs.data k).pos := by
  simp only [clipPolyCreateIntersection, updF]
  by_cases h1 : k = vs.size
  · simp [h1]
  · simp [h1, createVertex_pos]

theorem createIntersection_neighbor (vs : ClipVertices) (at_ : ℕ) (p : TmVec)
    (nb : ℕ) (al : ℚ) (k : ℕ) :
    ((clipPolyCreateIntersection vs at_ p nb al).data k).neighbor
      = if k = vs.size then nb else (vs.data k).neighbor := by
  simp only [clipPolyCreateIntersection, updF]
  by_cases h1 : k = vs.size
  · simp [h1]
  · simp [h1, createVertex_neighbor]

theorem createIntersection_alpha (vs : ClipVertices) (at_ : ℕ) (p : TmVec)
    (nb : ℕ) (al : ℚ) (k : ℕ) :
    ((clipPolyCreateIntersection vs at_ p nb al).data k).alpha
      = if k = vs.size then al else (vs.data k).alpha := by
  simp only [clipPolyCreateIntersection, updF]
  by_cases h1 : k = vs.size
  · simp [h1]
  · simp [h1, createVertex_alpha]

theorem setPos_size (vs : ClipVertices) (i : ℕ) (p : TmVec) :
    (setPos vs i p).size = vs.size := rfl

theorem setPos_originalSize (vs : ClipVertices) (i : ℕ) (p : TmVec) :
    (setPos vs i p).originalSize = vs.originalSize := rfl

theorem setPos_data (vs : ClipVertices) (i : ℕ) (p : TmVec) (k : ℕ) :
    (((setPos vs i p).data k).intersect = (vs.data k).intersect) ∧
    (((setPos vs i p).data k).neighbor = (vs.data k).neighbor) ∧
    (((setPos vs i p).data k).alpha = (vs.data k).alpha) ∧
    (((setPos vs i p).data k).next = (vs.data k).next) ∧
    (((setPos vs i p).data k).prev = (vs.data k).prev) ∧
    (((setPos vs i p).data k).pos = if k = i then p else (vs.data k).pos) := by
  simp only [setPos, updF]
  by_cases h1 : k = i <;> simp [h1]

/-! ### The mutual-neighbor invariant of intersection finding (claim C1) -/

/-- Every intersection node of ring `a` has a valid `neighbor` slot in ring
`b` holding an intersection node that points back and carries the same
position. -/
def NeighborInv (a b : ClipVertices) : Prop :=
  ∀ i, i < a.size → (a.data i).intersect = true →
    (a.data i).neighbor < b.size ∧
    (b.data ((a.data i).neighbor)).intersect = true ∧
    (b.data ((a.data i).neighbor)).neighbor = i ∧
    (b.data ((a.data i).neighbor)).pos = (a.data i).pos

/-- Original vertices (the slab prefix) never carry the INTERSECT flag. -/
def OrigPlain (v : ClipVertices) : Prop :=
  ∀ i, i < v.originalSize → (v.data i).intersect = false

/-- The joint state invariant of `clipPolyFindIntersections`. -/
def PairState (a b : ClipVertices) : Prop :=
  NeighborInv a b ∧ NeighborInv b a ∧ OrigPlain a ∧ OrigPlain b ∧
  a.originalSize ≤ a.size ∧ b.originalSize ≤ b.size

theorem PairState_comm (a b : ClipVertices) (h : PairState a b) :
    PairState b a :=
  ⟨h.2.1, h.1, h.2.2.2.1, h.2.2.1, h.2.2.2.2.2, h.2.2.2.2.1⟩

/-- Perturbing the position of a non-intersection node preserves the joint
invariant (partners of intersection nodes are themselves intersection
nodes, hence never the perturbed node). -/
theorem PairState_setPos (a b : ClipVertices) (j : ℕ) (p : TmVec)
    (h : PairState a b) (hj : (a.data j).intersect = false) :
    PairState (setPos a j p) b := by
  obtain ⟨hab, hba, hoa, hob, hsa, hsb⟩ := h
  refine ⟨?_, ?_, ?_, hob, hsa, hsb⟩
  · intro i hi hint
    rw [setPos_size] at hi
    rw [(setPos_data a j p i).1] at hint
    have hij : i ≠ j := by
      intro he
      rw [he, hj] at hint
      cases hint
    rw [(setPos_data a j p i).2.1,
      (setPos_data a j p i).2.2.2.2.2, if_neg hij]
    exact hab i hi hint
  · intro i hi hint
    obtain ⟨h1, h2, h3, h4⟩ := hba i hi hint
    have hnbj : (b.data i).neighbor ≠ j := by
      intro he
      rw [he, hj] at h2
      cases h2
    rw [setPos_size,
      (setPos_data a j p ((b.data i).neighbor)).1,
      (setPos_data a j p ((b.data i).neighbor)).2.1,
      (setPos_data a j p ((b.data i).neighbor)).2.2.2.2.2, if_neg hnbj]
    exact ⟨h1, h2, h3, h4⟩
  · intro i hi
    rw [setPos_originalSize] at hi
    rw [(setPos_data a j p i).1]
    exact hoa i hi

/-- The paired tail insertions of lines 534-540 preserve the joint
invariant: the new node of ring `a` lands at slot `a.size` with neighbor
`b.size`, the new node of ring `b` at slot `b.size` with neighbor `a.size`,
both with the same position, while the splices touch only `prev`/`next`
fields of old nodes. -/
theorem PairState_insert (a b : ClipVertices) (aIdx bIdx : ℕ) (p : TmVec)
    (aal bal : ℚ) (h : PairState a b) :
    PairState (clipPolyCreateIntersection a aIdx p b.size aal)
      (clipPolyCreateIntersection b bIdx p a.size bal) := by
  obtain ⟨hab, hba, hoa, hob, hsa, hsb⟩ := h
  have main : ∀ (x y : ClipVertices) (xIdx yIdx : ℕ) (xal yal : ℚ),
      NeighborInv x y →
      NeighborInv (clipPolyCreateIntersection x xIdx p y.size xal)
        (clipPolyCreateIntersection y yIdx p x.size yal) := by
    intro x y xIdx yIdx xal yal hxy
    intro i hi hint
    rw [createIntersection_size] at hi
    rw [createIntersection_intersect] at hint
    by_cases hnew : i = x.size
    · subst hnew
      simp only [createIntersection_size, createIntersection_intersect,
        createIntersection_neighbor, createIntersection_pos]
      simp
    · rw [if_neg hnew] at hint
      have hi2 : i < x.size := by
        rcases Nat.lt_succ_iff_lt_or_eq.mp hi with h1 | h1
        · exact h1
        · exact absurd h1 hnew
      obtain ⟨h1, h2, h3, h4⟩ := hxy i hi2 hint
      have hnb : (x.data i).neighbor ≠ y.size := Nat.ne_of_lt h1
      simp only [createIntersection_size, createIntersection_intersect,
        createIntersection_neighbor, createIntersection_pos,
        if_neg hnew, if_neg hnb]
      exact ⟨Nat.lt_succ_of_lt h1, h2, h3, h4⟩
  refine ⟨main a b aIdx bIdx aal bal hab, main b a bIdx aIdx bal aal hba,
    ?_, ?_, ?_, ?_⟩
  · intro i hi
    rw [createIntersection_originalSize] at hi
    rw [createIntersection_intersect,
      if_neg (Nat.ne_of_lt (Nat.lt_of_lt_of_le hi hsa))]
    exact hoa i hi
  · intro i hi
    rw [createIntersection_originalSize] at hi
    rw [createIntersection_intersect,
      if_neg (Nat.ne_of_lt (Nat.lt_of_lt_of_le hi hsb))]
    exact hob i hi
  · rw [createIntersection_size, createIntersection_originalSize]
    exact Nat.le_succ_of_le hsa
  · rw [createIntersection_size, createIntersection_originalSize]
    exact Nat.le_succ_of_le hsb

/-- Loop invariant for `clipPolyFindIntersectionsLoop`: the joint ring
invariant plus range bounds for the trailing-edge cursors. -/
def FindInvariant (st : FindIntersectState) : Prop :=
  PairState st.a st.b ∧
  (st.a.originalSize = 0 ∨ st.aPrevIndex < st.a.originalSize) ∧
  (st.b.originalSize = 0 ∨ st.bPrevIndex < st.b.originalSize)

theorem findLoop_pairState (fuel : ℕ) :
    ∀ st, FindInvariant st →
      PairState (clipPolyFindIntersectionsLoop fuel st).1
        (clipPolyFindIntersectionsLoop fuel st).2 := by
  induction fuel with
  | zero =>
    intro st h
    exact h.1
  | succ f ih =>
    intro st h
    obtain ⟨hpair, hap, hbp⟩ := h
    simp only [clipPolyFindIntersectionsLoop]
    by_cases hia : st.i ≥ st.a.originalSize
    · rw [if_pos hia]
      exact hpair
    · rw [if_neg hia]
      push_neg at hia
      by_cases hjb : st.j ≥ st.b.originalSize
      · rw [if_pos hjb]
        exact ih { st with i := st.i + 1, aPrevIndex := st.i, j := 0 }
          ⟨hpair, Or.inr hia, hbp⟩
      · rw [if_neg hjb]
        push_neg at hjb
        have hap2 : st.aPrevIndex < st.a.originalSize :=
          hap.resolve_left (by omega)
        have hbp2 : st.bPrevIndex < st.b.originalSize :=
          hbp.resolve_left (by omega)
        have hoa := hpair.2.2.1
        have hob := hpair.2.2.2.1
        cases clipPolyHitParams ((st.a.data st.aPrevIndex).pos)
            _ ((st.b.data st.bPrevIndex).pos) _ with
        | none =>
          exact ih { st with j := st.j + 1, bPrevIndex := st.j }
            ⟨hpair, hap, Or.inr hjb⟩
        | some al =>
          dsimp only
          by_cases hd1 : al.1 ≤ 1 / 100000
          · rw [if_pos hd1]
            exact ih { st with a := setPos st.a st.aPrevIndex _ }
              ⟨PairState_setPos _ _ _ _ hpair (hoa _ hap2), hap, hbp⟩
          · rw [if_neg hd1]
            by_cases hd2 : al.1 ≥ 99999 / 100000
            · rw [if_pos hd2]
              exact ih { st with a := setPos st.a st.i _ }
                ⟨PairState_setPos _ _ _ _ hpair (hoa _ hia), hap, hbp⟩
            · rw [if_neg hd2]
              by_cases hd3 : al.2 ≤ 1 / 100000
              · rw [if_pos hd3]
                refine ih { st with b := setPos st.b st.bPrevIndex _ }
                  ⟨?_, hap, hbp⟩
                exact PairState_comm _ _ (PairState_setPos _ _ _ _
                  (PairState_comm _ _ hpair) (hob _ hbp2))
              · rw [if_neg hd3]
                by_cases hd4 : al.2 ≥ 99999 / 100000
                · rw [if_pos hd4]
                  refine ih { st with b := setPos st.b st.j _ }
                    ⟨?_, hap, hbp⟩
                  exact PairState_comm _ _ (PairState_setPos _ _ _ _
                    (PairState_comm _ _ hpair) (hob _ hjb))
                · rw [if_neg hd4]
                  refine ih _ ⟨PairState_insert _ _ _ _ _ _ _ hpair, ?_, ?_⟩
                  · show st.a.originalSize = 0 ∨
                      st.aPrevIndex < st.a.originalSize
                    exact hap
                  · show st.b.originalSize = 0 ∨ st.j < st.b.originalSize
                    exact Or.inr hjb

/-- Transformed input rings satisfy the joint invariant: no INTERSECT flag
anywhere in the populated prefix. -/
theorem transform_pairState (va vb : List TmVec) (capA capB : ℕ) :
    PairState (clipPolyTransformData va capA)
      (clipPolyTransformData vb capB) := by
  have hplain : ∀ (l : List TmVec) (c : ℕ) (i : ℕ),
      ((clipPolyTransformData l c).data i).intersect = false := by
    intro l c i
    simp only [clipPolyTransformData]
    by_cases h : i < l.length <;> simp [h, zeroClipVertex]
  have hni : ∀ (l1 l2 : List TmVec) (c1 c2 : ℕ),
      NeighborInv (clipPolyTransformData l1 c1)
        (clipPolyTransformData l2 c2) := by
    intro l1 l2 c1 c2 i _ hint
    rw [hplain l1 c1 i] at hint
    cases hint
  exact ⟨hni va vb capA capB, hni vb va capB capA,
    fun i _ => hplain va capA i, fun i _ => hplain vb capB i,
    le_refl _, le_refl _⟩

/-- C1: after `clipPolyFindIntersections` on two transformed input rings,
every node of ring A carrying the INTERSECT flag has a `neighbor` index `k`
with `k < B.size`, `B[k]` has INTERSECT set, `B[k].neighbor` points back to
the A node's own index, and both nodes carry the same `pos` (which is the
intersection point both were created with and is never mutated afterwards:
the degeneracy perturbation only rewrites positions of original vertices,
which never carry INTERSECT); and symmetrically for ring B. -/
theorem C1_neighbor_pairing (va vb : List TmVec) (capA capB fuel : ℕ) :
    NeighborInv
      (clipPolyFindIntersections (clipPolyTransformData va capA)
        (clipPolyTransformData vb capB) fuel).1
      (clipPolyFindIntersections (clipPolyTransformData va capA)
        (clipPolyTransformData vb capB) fuel).2 ∧
    NeighborInv
      (clipPolyFindIntersections (clipPolyTransformData va capA)
        (clipPolyTransformData vb capB) fuel).2
      (clipPolyFindIntersections (clipPolyTransformData va capA)
        (clipPolyTransformData vb capB) fuel).1 := by
  have h := findLoop_pairState fuel
    { a := clipPolyTransformData va capA, b := clipPolyTransformData vb capB,
      i := 0, aPrevIndex := va.length - 1, j := 0,
      bPrevIndex := vb.length - 1 }
    ⟨transform_pairState va vb capA capB, ?_, ?_⟩
  · exact ⟨h.1, h.2.1⟩
  · rcases Nat.eq_zero_or_pos va.length with h0 | h0
    · exact Or.inl h0
    · exact Or.inr (by simpa [clipPolyTransformData] using Nat.sub_lt h0 one_pos)
  · rcases Nat.eq_zero_or_pos vb.length with h0 | h0
    · exact Or.inl h0
    · exact Or.inr (by simpa [clipPolyTransformData] using Nat.sub_lt h0 one_pos)

/-! ### Output bounds of the ear-clipping triangulator (claim C3, amended) -/

theorem getD_lt_of_forall (l : List ℕ) (i c : ℕ) (hc : 0 < c)
    (h : ∀ q ∈ l, q < c) : l.getD i 0 < c := by
  rcases h2 : l[i]? with _ | x
  · rw [List.getD_eq_getElem?_getD, h2]
    exact hc
  · rw [List.getD_eq_getElem?_getD, h2]
    exact h x (List.getElem?_mem h2)

theorem triEarStep_queryList (cw : Bool) (b : ℕ) (st : TriState) :
    (triEarStep cw b st).queryList = st.queryList.eraseIdx st.b := rfl

theorem triEarStep_out_length (cw : Bool) (b : ℕ) (st : TriState) :
    (triEarStep cw b st).out.length = st.out.length + 3 := by
  show (if cw = TMPO_CLOCKWISE_TRIANGLES then _ else _ : List ℕ).length = _
  split_ifs <;> simp

theorem triEarStep_out_mem (cw : Bool) (b : ℕ) (st : TriState) (x : ℕ)
    (hx : x ∈ (triEarStep cw b st).out) :
    x ∈ st.out ∨ x = (st.queryList.getD st.a 0 + b) % 65536 ∨
      x = (st.queryList.getD st.b 0 + b) % 65536 ∨
      x = (st.queryList.getD st.c 0 + b) % 65536 := by
  have hx2 : x ∈ (if cw = TMPO_CLOCKWISE_TRIANGLES then
      st.out ++ [(st.queryList.getD st.a 0 + b) % 65536,
                 (st.queryList.getD st.b 0 + b) % 65536,
                 (st.queryList.getD st.c 0 + b) % 65536]
    else
      st.out ++ [(st.queryList.getD st.a 0 + b) % 65536,
                 (st.queryList.getD st.c 0 + b) % 65536,
                 (st.queryList.getD st.b 0 + b) % 65536]) := hx
  split_ifs at hx2 <;>
    (rcases List.mem_append.mp hx2 with h | h
     · exact Or.inl h
     · simp only [List.mem_cons, List.not_mem_nil, or_false] at h
       tauto)

theorem triSkipStep_a_lt (st : TriState) (h2 : 2 ≤ st.queryList.length)
    (hb : st.b < st.queryList.length) :
    (triSkipStep st).a < (triSkipStep st).queryList.length := by
  show (if st.current + 1 ≥ st.queryList.length then st.queryList.length - 2
        else st.b) < st.queryList.length
  split_ifs <;> omega

theorem triSkipStep_b_lt (st : TriState) (h2 : 2 ≤ st.queryList.length)
    (hc : st.current < st.queryList.length) :
    (triSkipStep st).b < (triSkipStep st).queryList.length := by
  show (if st.current + 1 ≥ st.queryList.length then st.queryList.length - 1
        else st.current) < st.queryList.length
  split_ifs <;> omega

theorem triSkipStep_current_lt (st : TriState) (h2 : 2 ≤ st.queryList.length) :
    (triSkipStep st).current < (triSkipStep st).queryList.length := by
  show (if st.current + 1 ≥ st.queryList.length then 0
        else st.current + 1) < st.queryList.length
  split_ifs <;> omega

/-- Invariant of the triangulation loop: the scratch ring holds indices
below `count`, the rolling triple stays inside the ring, already-emitted
indices are in range, and the loop can only add `3 * (size - 2)` more
indices, three at a time. -/
theorem triLoop_bound (vertices : List TmVec) (count : ℕ) (cw : Bool)
    (begin_ maxIndices : ℕ) (hcount : 0 < count)
    (hb : begin_ + count ≤ 65536) :
    ∀ fuel st, (∀ q ∈ st.queryList, q < count) →
      2 ≤ st.queryList.length →
      st.a < st.queryList.length →
      st.b < st.queryList.length →
      st.current < st.queryList.length →
      (∀ x ∈ st.out, begin_ ≤ x ∧ x < begin_ + count) →
      (triLoop vertices count cw begin_ maxIndices fuel st).length
          ≤ st.out.length + 3 * (st.queryList.length - 2) ∧
      (triLoop vertices count cw begin_ maxIndices fuel st).length % 3
          = st.out.length % 3 ∧
      ∀ x ∈ triLoop vertices count cw begin_ maxIndices fuel st,
        begin_ ≤ x ∧ x < begin_ + count := by
  intro fuel
  induction fuel with
  | zero =>
    intro st hq hlen ha hbnd hcur hout
    exact ⟨Nat.le_add_right _ _, rfl, hout⟩
  | succ f ih =>
    intro st hq hlen ha hbnd hcur hout
    simp only [triLoop]
    by_cases hsz : st.queryList.length > 2
    · rw [if_pos hsz]
      by_cases hear : isTriangleEar (st.queryList.getD st.a 0)
          (st.queryList.getD st.b 0) (st.queryList.getD st.c 0)
          vertices count cw
      · rw [if_pos hear]
        by_cases hmem : st.out.length + 3 > maxIndices
        · rw [if_pos hmem]
          exact ⟨Nat.le_add_right _ _, rfl, hout⟩
        · rw [if_neg hmem]
          have hqa := getD_lt_of_forall st.queryList st.a count hcount hq
          have hqb := getD_lt_of_forall st.queryList st.b count hcount hq
          have hqc := getD_lt_of_forall st.queryList st.c count hcount hq
          have hlen2 : (triEarStep cw begin_ st).queryList.length
              = st.queryList.length - 1 := by
            rw [triEarStep_queryList, List.length_eraseIdx_of_lt hbnd]
          have hinrange : ∀ q, q < count →
              begin_ ≤ (q + begin_) % 65536 ∧
              (q + begin_) % 65536 < begin_ + count := by
            intro q hqlt
            have : q + begin_ < 65536 := by omega
            rw [Nat.mod_eq_of_lt this]
            omega
          have hcur2 : triCur2 st < st.queryList.length - 1 := by
            simp only [triCur2]
            split_ifs <;> omega
          obtain ⟨k1, k2, k3⟩ := ih (triEarStep cw begin_ st)
            (fun q hq2 => by
              rw [triEarStep_queryList] at hq2
              exact hq q (List.eraseIdx_subset _ _ hq2))
            (by rw [hlen2]; omega)
            (by
              show triA2 st < _
              rw [hlen2]
              simp only [triA2]
              split_ifs <;> omega)
            (by
              show triB2 st < _
              rw [hlen2]
              simp only [triB2]
              split_ifs <;> omega)
            (by
              show triCur2 st < _
              rw [hlen2]
              exact hcur2)
            (by
              intro x hx
              rcases triEarStep_out_mem cw begin_ st x hx with
                h | h | h | h
              · exact hout x h
              · exact h ▸ hinrange _ hqa
              · exact h ▸ hinrange _ hqb
              · exact h ▸ hinrange _ hqc)
          refine ⟨?_, ?_, k3⟩
          · rw [triEarStep_out_length, hlen2] at k1
            omega
          · rw [triEarStep_out_length] at k2
            omega
      · rw [if_neg hear]
        by_cases hguard : st.iterationCount > 2 * st.queryList.length
        · rw [if_pos hguard]
          exact ⟨Nat.le_add_right _ _, rfl, hout⟩
        · rw [if_neg hguard]
          exact ih (triSkipStep st) hq hlen
            (triSkipStep_a_lt st (by omega) hbnd)
            (triSkipStep_b_lt st (by omega) hcur)
            (triSkipStep_current_lt st (by omega))
            hout
    · rw [if_neg hsz]
      exact ⟨Nat.le_add_right _ _, rfl, hout⟩

/-- C3 amended: with `n ≥ 3` vertices, a correctly asserted clockwise flag,
a scratch ring of length `≥ n`, an output buffer of capacity `≥ 3*(n-2)`,
and `begin + n ≤ 2^16` (so the 16-bit index arithmetic does not wrap),
`triangulatePolygonEarClipping` emits AT MOST `3*(n-2)` indices, always a
multiple of 3, and every emitted index lies in `[begin, begin+n)`.  Exactly
`3*(n-2)` is not guaranteed: the closed point-in-triangle test runs over
all original vertices (including clipped ones), a vertex lying exactly on
the boundary of every remaining candidate triangle blocks all ears, and
the liveness guard then aborts early (see the counterexample). -/
theorem C3_amended (vertices : List TmVec) (count : ℕ) (clockwise : Bool)
    (queryCount begin_ maxIndices : ℕ)
    (h3 : 3 ≤ count) (hqc : count ≤ queryCount)
    (hb : begin_ + count ≤ 65536) (hm : 3 * (count - 2) ≤ maxIndices) :
    (triangulatePolygonEarClipping vertices count clockwise queryCount
        begin_ maxIndices).length ≤ 3 * (count - 2) ∧
    (triangulatePolygonEarClipping vertices count clockwise queryCount
        begin_ maxIndices).length % 3 = 0 ∧
    ∀ x ∈ triangulatePolygonEarClipping vertices count clockwise queryCount
        begin_ maxIndices, begin_ ≤ x ∧ x < begin_ + count := by
  have hmin : min count queryCount = count := Nat.min_eq_left hqc
  have hcount : 0 < count := by omega
  simp only [triangulatePolygonEarClipping, hmin]
  rw [if_neg (by omega)]
  have h := triLoop_bound vertices count clockwise begin_ maxIndices hcount hb
    (triFuel count)
    { queryList := (List.range count).map (fun i => i % 65536),
      a := 0, b := 1, c := 2, current := 2, iterationCount := 0, out := [] }
    ?_ ?_ ?_ ?_ ?_ ?_
  · have hlen : ((List.range count).map (fun i => i % 65536)).length
        = count := by
      rw [List.length_map, List.length_range]
    refine ⟨?_, ?_, h.2.2⟩
    · have := h.1
      rw [hlen] at this
      simpa using this
    · have := h.2.1
      simpa using this
  · intro q hq2
    rcases List.mem_map.mp hq2 with ⟨i, hi, hqi⟩
    have : i < count := List.mem_range.mp hi
    omega
  · rw [List.length_map, List.length_range]
    omega
  · rw [List.length_map, List.length_range]
    exact hcount
  · rw [List.length_map, List.length_range]
    have h1c : 1 < count := by omega
    exact h1c
  · rw [List.length_map, List.length_range]
    have h2c : 2 < count := by omega
    exact h2c
  · intro x hx
    cases hx

/-- C3 witness for the amended theorem: the unit square with `begin = 5`. -/
theorem C3_amended_witness :
    (triangulatePolygonEarClipping [⟨0,0⟩, ⟨1,0⟩, ⟨1,1⟩, ⟨0,1⟩] 4 true 4 5
        6).length ≤ 3 * (4 - 2) ∧
    (triangulatePolygonEarClipping [⟨0,0⟩, ⟨1,0⟩, ⟨1,1⟩, ⟨0,1⟩] 4 true 4 5
        6).length % 3 = 0 ∧
    ∀ x ∈ triangulatePolygonEarClipping [⟨0,0⟩, ⟨1,0⟩, ⟨1,1⟩, ⟨0,1⟩] 4 true
        4 5 6, 5 ≤ x ∧ x < 5 + 4 :=
  C3_amended [⟨0,0⟩, ⟨1,0⟩, ⟨1,1⟩, ⟨0,1⟩] 4 true 4 5 6 (by omega) (by omega)
    (by omega) (by omega)

/-! ### Emission without intersections (claims C6 and C7) -/

/-- When the outer scan of `clipPolyEmitClippedPolygons` meets no
unprocessed intersection node, it walks `next` back to slot 0 and changes
nothing but the cursor. -/
theorem emitOuter_clean (maxPolygons maxCount : ℕ) :
    ∀ fuel (st : EmitState), st.curIsA = true →
      walkCleanToZero st.a fuel st.i = true →
      emitOuter maxPolygons maxCount fuel st = Sum.inr { st with i := 0 } := by
  intro fuel
  induction fuel with
  | zero =>
    intro st hcur hw
    simp [walkCleanToZero] at hw
  | succ f ih =>
    intro st hcur hw
    simp only [emitOuter]
    by_cases hi : st.i = 0
    · rw [if_pos hi]
      cases st with
      | mk curIsA a b i currentPoly polyCount put polys pool hasInt =>
        dsimp only at hi
        subst hi
        rfl
    · rw [if_neg hi]
      simp only [walkCleanToZero, if_neg hi, Bool.and_eq_true,
        Bool.not_eq_true'] at hw
      have hcureq : st.cur = st.a := by
        simp only [EmitState.cur, hcur, if_true]
      rw [if_neg (by
        rw [hcureq]
        intro hc
        rw [hw.1] at hc
        exact Bool.false_ne_true hc.1)]
      rw [hcureq]
      exact ih { st with i := (st.a.data st.i).next } hcur hw.2

/-- The epilogue when the fallback fires none of its cases: everything is
returned as it stands, and the unstarted polygon 1 is not finalized. -/
theorem emitFinish_clean (maxPolygons maxCount : ℕ) (st : EmitState)
    (hni : st.hasIntersections = false)
    (hin1 : clipPolyPointInsidePoly st.b (st.a.data 0).pos = false)
    (hin2 : st.b.size = 0 ∨
      clipPolyPointInsidePoly st.a (st.b.data 0).pos = false)
    (hcp : ¬ st.currentPoly < st.polyCount) :
    emitFinish maxPolygons maxCount st
      = ⟨st.polys, st.pool, st.a, st.b, ⟨st.polyCount, st.put % 65536⟩⟩ := by
  have hfb : emitFallback maxPolygons maxCount st = Sum.inr st := by
    rcases hin2 with h | h
    · simp [emitFallback, hni, hin1, h]
    · simp [emitFallback, hni, hin1, h]
  simp only [emitFinish, hfb]
  rw [if_neg hcp]

/-- The epilogue when ring A's first vertex is inside B (fallback case 1,
lines 697-712): A's original loop is emitted as the single new polygon. -/
theorem emitFinish_containA (maxPolygons maxCount : ℕ) (st : EmitState)
    (hni : st.hasIntersections = false)
    (hin : clipPolyPointInsidePoly st.b (st.a.data 0).pos = true)
    (hmp : ¬ st.polyCount + 1 > maxPolygons)
    (hput : st.put = 0) :
    emitFinish maxPolygons maxCount st =
      ⟨ updPoly (updPoly st.polys st.polyCount
            (fun e => { e with start := 0 }))
          st.polyCount
          (fun e => { e with size := min maxCount st.a.originalSize }),
        fun k => if k < min maxCount st.a.originalSize then (st.a.data k).pos
                 else st.pool k,
        st.a, st.b, ⟨st.polyCount + 1, min maxCount st.a.originalSize % 65536⟩ ⟩ := by
  have hfb : emitFallback maxPolygons maxCount st = Sum.inr
      { curIsA := st.curIsA, a := st.a, b := st.b, i := st.i,
        currentPoly := st.polyCount, polyCount := st.polyCount + 1,
        put := min maxCount st.a.originalSize,
        polys := updPoly st.polys st.polyCount
          (fun e => { e with start := 0 }),
        pool := fun k => if k < min maxCount st.a.originalSize
                then (st.a.data k).pos else st.pool k,
        hasIntersections := false } := by
    simp [emitFallback, hni, hin, hput, hmp]
  simp only [emitFinish, hfb]
  rw [if_pos (show st.polyCount < st.polyCount + 1 by omega)]
  congr 1
  funext k
  simp only [updPoly]
  split_ifs with h1
  · subst h1
    rfl
  · rfl

/-- The epilogue when A's first vertex is outside B but B is nonempty with
its first vertex inside A (fallback case 2, lines 713-729): B's original
loop is emitted as the single new polygon. -/
theorem emitFinish_containB (maxPolygons maxCount : ℕ) (st : EmitState)
    (hni : st.hasIntersections = false)
    (hin1 : clipPolyPointInsidePoly st.b (st.a.data 0).pos = false)
    (hb0 : st.b.size ≠ 0)
    (hin2 : clipPolyPointInsidePoly st.a (st.b.data 0).pos = true)
    (hmp : ¬ st.polyCount + 1 > maxPolygons)
    (hput : st.put = 0) :
    emitFinish maxPolygons maxCount st =
      ⟨ updPoly (updPoly st.polys st.polyCount
            (fun e => { e with start := 0 }))
          st.polyCount
          (fun e => { e with size := min maxCount st.b.originalSize }),
        fun k => if k < min maxCount st.b.originalSize then (st.b.data k).pos
                 else st.pool k,
        st.a, st.b, ⟨st.polyCount + 1, min maxCount st.b.originalSize % 65536⟩ ⟩ := by
  have hfb : emitFallback maxPolygons maxCount st = Sum.inr
      { curIsA := st.curIsA, a := st.a, b := st.b, i := st.i,
        currentPoly := st.polyCount, polyCount := st.polyCount + 1,
        put := min maxCount st.b.originalSize,
        polys := updPoly st.polys st.polyCount
          (fun e => { e with start := 0 }),
        pool := fun k => if k < min maxCount st.b.originalSize
                then (st.b.data k).pos else st.pool k,
        hasIntersections := false } := by
    simp [emitFallback, hni, hin1, hin2, hb0, hput, hmp]
  simp only [emitFinish, hfb]
  rw [if_pos (show st.polyCount < st.polyCount + 1 by omega)]
  congr 1
  funext k
  simp only [updPoly]
  split_ifs with h1
  · subst h1
    rfl
  · rfl

/-- Ring A of the disjoint-squares scenario after finding and marking, with
the `A ∖ B` direction pair `(BACKWARD, FORWARD)`. -/
def disjointA : ClipVertices :=
  (clipPolyMarkEntryExitPoints
    (clipPolyFindIntersections
      (clipPolyTransformData [⟨0,0⟩, ⟨1,0⟩, ⟨1,1⟩, ⟨0,1⟩] 16)
      (clipPolyTransformData [⟨5,0⟩, ⟨6,0⟩, ⟨6,1⟩, ⟨5,1⟩] 16) 200).1
    (clipPolyFindIntersections
      (clipPolyTransformData [⟨0,0⟩, ⟨1,0⟩, ⟨1,1⟩, ⟨0,1⟩] 16)
      (clipPolyTransformData [⟨5,0⟩, ⟨6,0⟩, ⟨6,1⟩, ⟨5,1⟩] 16) 200).2
    ClipFollowDirection.CFD_BACKWARD ClipFollowDirection.CFD_FORWARD 200).1

/-- Ring B of the disjoint-squares scenario after finding and marking. -/
def disjointB : ClipVertices :=
  (clipPolyMarkEntryExitPoints
    (clipPolyFindIntersections
      (clipPolyTransformData [⟨0,0⟩, ⟨1,0⟩, ⟨1,1⟩, ⟨0,1⟩] 16)
      (clipPolyTransformData [⟨5,0⟩, ⟨6,0⟩, ⟨6,1⟩, ⟨5,1⟩] 16) 200).1
    (clipPolyFindIntersections
      (clipPolyTransformData [⟨0,0⟩, ⟨1,0⟩, ⟨1,1⟩, ⟨0,1⟩] 16)
      (clipPolyTransformData [⟨5,0⟩, ⟨6,0⟩, ⟨6,1⟩, ⟨5,1⟩] 16) 200).2
    ClipFollowDirection.CFD_BACKWARD ClipFollowDirection.CFD_FORWARD 200).2

/-- C6 amended: when the rings carry no intersection nodes (the scan's walk
from `A[0].next` back to slot 0 meets only plain nodes), `A[0]` is not
inside B, and B is empty or `B[0]` is not inside A, the emitter returns
ZERO polygons and leaves the caller's polygon array and vertex pool
untouched — for every follow-direction choice, so in particular for the
`A ∖ B` direction pair; the claimed "emits polygon A" behaviour does not
exist (the fallback of lines 695-730 only handles containment, never
disjointness). -/
theorem C6_amended (a b : ClipVertices) (polys0 : ℕ → ClipPolygonEntry)
    (maxPolygons : ℕ) (pool0 : ℕ → TmVec) (maxCount fuel : ℕ)
    (ha1 : 1 ≤ a.size)
    (hwalk : walkCleanToZero a fuel ((a.data 0).next) = true)
    (hin1 : clipPolyPointInsidePoly b (a.data 0).pos = false)
    (hin2 : b.size = 0 ∨ clipPolyPointInsidePoly a (b.data 0).pos = false) :
    clipPolyEmitClippedPolygons a b polys0 maxPolygons pool0 maxCount fuel
      = ⟨polys0, pool0, a, b, ⟨0, 0⟩⟩ := by
  simp only [clipPolyEmitClippedPolygons]
  rw [if_neg (by omega)]
  rw [emitOuter_clean maxPolygons maxCount fuel
    { curIsA := true, a := a, b := b, i := (a.data 0).next,
      currentPoly := 1, polyCount := 0, put := 0, polys := polys0,
      pool := pool0, hasIntersections := false } rfl hwalk]
  exact emitFinish_clean maxPolygons maxCount _ rfl hin1 hin2
    (fun h => Nat.not_lt_zero 1 h)

/-- C6 witness: the disjoint unit squares with the `A ∖ B` direction pair
emit nothing and leave the sentinel-filled outputs alone. -/
theorem C6_amended_witness :
    disjointDiffRun.result = ⟨0, 0⟩ ∧
    disjointDiffRun.polys 1 = ⟨77, 99⟩ ∧
    disjointDiffRun.pool 7 = ⟨0, 0⟩ := by
  have h := C6_amended disjointA disjointB (fun _ => ⟨77, 99⟩) 4
    (fun _ => ⟨0, 0⟩) 16 200 (by decide) (by decide) (by decide)
    (Or.inr (by decide))
  have h2 : disjointDiffRun = clipPolyEmitClippedPolygons disjointA disjointB
      (fun _ => ⟨77, 99⟩) 4 (fun _ => ⟨0, 0⟩) 16 200 := rfl
  rw [h2, h]
  exact ⟨rfl, rfl, rfl⟩

/-- Ring A of the containment scenario (B strictly inside A) after finding
and marking with the intersection direction pair `(FORWARD, FORWARD)`. -/
def containA : ClipVertices :=
  (clipPolyMarkEntryExitPoints
    (clipPolyFindIntersections
      (clipPolyTransformData [⟨0,0⟩, ⟨4,0⟩, ⟨4,4⟩, ⟨0,4⟩] 16)
      (clipPolyTransformData [⟨1,1⟩, ⟨2,1⟩, ⟨2,2⟩, ⟨1,2⟩] 16) 200).1
    (clipPolyFindIntersections
      (clipPolyTransformData [⟨0,0⟩, ⟨4,0⟩, ⟨4,4⟩, ⟨0,4⟩] 16)
      (clipPolyTransformData [⟨1,1⟩, ⟨2,1⟩, ⟨2,2⟩, ⟨1,2⟩] 16) 200).2
    ClipFollowDirection.CFD_FORWARD ClipFollowDirection.CFD_FORWARD 200).1

/-- Ring B of the containment scenario after finding and marking. -/
def containB : ClipVertices :=
  (clipPolyMarkEntryExitPoints
    (clipPolyFindIntersections
      (clipPolyTransformData [⟨0,0⟩, ⟨4,0⟩, ⟨4,4⟩, ⟨0,4⟩] 16)
      (clipPolyTransformData [⟨1,1⟩, ⟨2,1⟩, ⟨2,2⟩, ⟨1,2⟩] 16) 200).1
    (clipPolyFindIntersections
      (clipPolyTransformData [⟨0,0⟩, ⟨4,0⟩, ⟨4,4⟩, ⟨0,4⟩] 16)
      (clipPolyTransformData [⟨1,1⟩, ⟨2,1⟩, ⟨2,2⟩, ⟨1,2⟩] 16) 200).2
    ClipFollowDirection.CFD_FORWARD ClipFollowDirection.CFD_FORWARD 200).2

/-- C7: with no intersection nodes on the scan's walk, the emitter's
containment fallback emits exactly one polygon holding the inner ring's
original vertex loop verbatim (truncated to `maxCount`): polygon 0 spans
pool slots `[0, min maxCount inner.originalSize)`, which receive the inner
ring's vertex positions in order, everything else is untouched, and the
result counts one polygon with that many vertices.  The inner ring is A
when `A[0]` is inside B (first conjunct), else B when B is nonempty and
`B[0]` is inside A (second conjunct). -/
theorem C7_containment_intersection (a b : ClipVertices)
    (polys0 : ℕ → ClipPolygonEntry) (maxPolygons : ℕ) (pool0 : ℕ → TmVec)
    (maxCount fuel : ℕ)
    (ha1 : 1 ≤ a.size)
    (hwalk : walkCleanToZero a fuel ((a.data 0).next) = true)
    (hmp : 1 ≤ maxPolygons) :
    (clipPolyPointInsidePoly b (a.data 0).pos = true →
      clipPolyEmitClippedPolygons a b polys0 maxPolygons pool0 maxCount fuel
        = ⟨ updPoly (updPoly polys0 0 (fun e => { e with start := 0 })) 0
              (fun e => { e with size := min maxCount a.originalSize }),
            fun k => if k < min maxCount a.originalSize then (a.data k).pos
                     else pool0 k,
            a, b, ⟨1, min maxCount a.originalSize % 65536⟩ ⟩) ∧
    (clipPolyPointInsidePoly b (a.data 0).pos = false →
      b.size ≠ 0 →
      clipPolyPointInsidePoly a (b.data 0).pos = true →
      clipPolyEmitClippedPolygons a b polys0 maxPolygons pool0 maxCount fuel
        = ⟨ updPoly (updPoly polys0 0 (fun e => { e with start := 0 })) 0
              (fun e => { e with size := min maxCount b.originalSize }),
            fun k => if k < min maxCount b.originalSize then (b.data k).pos
                     else pool0 k,
            a, b, ⟨1, min maxCount b.originalSize % 65536⟩ ⟩) := by
  constructor
  · intro hin
    simp only [clipPolyEmitClippedPolygons]
    rw [if_neg (by omega)]
    rw [emitOuter_clean maxPolygons maxCount fuel
      { curIsA := true, a := a, b := b, i := (a.data 0).next,
        currentPoly := 1, polyCount := 0, put := 0, polys := polys0,
        pool := pool0, hasIntersections := false } rfl hwalk]
    exact emitFinish_containA maxPolygons maxCount _ rfl hin
      (fun h => absurd h (show ¬ 0 + 1 > maxPolygons by omega)) rfl
  · intro hin1 hb0 hin2
    simp only [clipPolyEmitClippedPolygons]
    rw [if_neg (by omega)]
    rw [emitOuter_clean maxPolygons maxCount fuel
      { curIsA := true, a := a, b := b, i := (a.data 0).next,
        currentPoly := 1, polyCount := 0, put := 0, polys := polys0,
        pool := pool0, hasIntersections := false } rfl hwalk]
    exact emitFinish_containB maxPolygons maxCount _ rfl hin1 hb0 hin2
      (fun h => absurd h (show ¬ 0 + 1 > maxPolygons by omega)) rfl

/-- C7 witness: A = `[(0,0),(4,0),(4,4),(0,4)]`, B = `[(1,1),(2,1),(2,2),
(1,2)]`, directions `(FORWARD, FORWARD)` — one polygon of 4 vertices, B's
loop verbatim in pool slots 0-3. -/
theorem C7_witness :
    containRun.result = ⟨1, 4⟩ ∧
    containRun.polys 0 = ⟨0, 4⟩ ∧
    containRun.pool 0 = ⟨1, 1⟩ ∧ containRun.pool 1 = ⟨2, 1⟩ ∧
    containRun.pool 2 = ⟨2, 2⟩ ∧ containRun.pool 3 = ⟨1, 2⟩ ∧
    containRun.pool 4 = ⟨0, 0⟩ := by
  have h := (C7_containment_intersection containA containB (fun _ => ⟨77, 99⟩)
      4 (fun _ => ⟨0, 0⟩) 16 200 (by decide) (by decide) (by omega)).2
    (by decide) (by decide) (by decide)
  have h2 : containRun = clipPolyEmitClippedPolygons containA containB
      (fun _ => ⟨77, 99⟩) 4 (fun _ => ⟨0, 0⟩) 16 200 := rfl
  rw [h2, h]
  exact ⟨by decide, by decide, by decide, by decide, by decide, by decide,
    by decide⟩

/-! ### Alpha-sortedness of inserted intersection chains (claim C4) -/

/-- `m`-fold iteration of the `prev` link. -/
def prevIter (v : ClipVertices) : ℕ → ℕ → ℕ
  | 0, k => k
  | m + 1, k => prevIter v m ((v.data k).prev)

/-- The slab prefix is a family of doubly-linked rings: both links stay in
range and are mutually inverse. -/
def DLL (v : ClipVertices) : Prop :=
  ∀ k, k < v.size →
    (v.data k).next < v.size ∧ (v.data k).prev < v.size ∧
    (v.data ((v.data k).next)).prev = k ∧ (v.data ((v.data k).prev)).next = k

/-- From every node, walking `prev` eventually reaches a node without the
INTERSECT flag (the backward walk of `clipPolyFindIntersectionIndex` can
escape the inserted chain). -/
def EscapeExists (v : ClipVertices) : Prop :=
  ∀ k, k < v.size → ∃ m, (v.data (prevIter v m k)).intersect = false

/-- Ring-adjacent pairs of intersection nodes have non-decreasing `alpha`. -/
def AlphaSorted (v : ClipVertices) : Prop :=
  ∀ k, k < v.size → (v.data k).intersect = true →
    (v.data ((v.data k).next)).intersect = true →
    (v.data k).alpha ≤ (v.data ((v.data k).next)).alpha

/-- Combined ring-structure invariant maintained by intersection finding. -/
def RingInv (v : ClipVertices) : Prop :=
  DLL v ∧ EscapeExists v ∧ AlphaSorted v

/-- Number of slab-prefix nodes carrying the INTERSECT flag. -/
def intersectCount (v : ClipVertices) : ℕ :=
  ((Finset.range v.size).filter (fun j => (v.data j).intersect = true)).card

theorem prevIter_add (v : ClipVertices) (a : ℕ) :
    ∀ (c k : ℕ), prevIter v (a + c) k = prevIter v c (prevIter v a k) := by
  induction a with
  | zero =>
    intro c k
    rw [Nat.zero_add]
    simp only [prevIter]
  | succ n ih =>
    intro c k
    have h1 : n + 1 + c = (n + c) + 1 := by omega
    rw [h1]
    exact ih c ((v.data k).prev)

theorem prevIter_lt (v : ClipVertices)
    (hdp : ∀ k, k < v.size → (v.data k).prev < v.size) (m : ℕ) :
    ∀ k, k < v.size → prevIter v m k < v.size := by
  induction m with
  | zero => intro k hk; exact hk
  | succ n ih => intro k hk; exact ih ((v.data k).prev) (hdp k hk)

theorem intersectCount_le_size (v : ClipVertices) :
    intersectCount v ≤ v.size := by
  have h := Finset.card_filter_le (Finset.range v.size)
    (fun j => (v.data j).intersect = true)
  rwa [Finset.card_range] at h

/-- Pigeonhole: an escaping backward walk escapes within `intersectCount`
steps — the minimal walk crosses pairwise distinct INTERSECT nodes. -/
theorem escape_within_count (v : ClipVertices)
    (hdp : ∀ k, k < v.size → (v.data k).prev < v.size)
    (k : ℕ) (hk : k < v.size)
    (h : ∃ m, (v.data (prevIter v m k)).intersect = false) :
    ∃ m, m ≤ intersectCount v ∧
      (v.data (prevIter v m k)).intersect = false := by
  classical
  by_cases hle : Nat.find h ≤ intersectCount v
  · exact ⟨Nat.find h, hle, Nat.find_spec h⟩
  · exfalso
    push_neg at hle
    have hint : ∀ a, a < Nat.find h →
        (v.data (prevIter v a k)).intersect = true := by
      intro a ha
      have := Nat.find_min h ha
      cases hx : (v.data (prevIter v a k)).intersect
      · exact absurd hx this
      · rfl
    have hshift : ∀ a b, a < b → b < Nat.find h →
        prevIter v a k = prevIter v b k → False := by
      intro a b hab hb heq
      have h1 : Nat.find h = b + (Nat.find h - b) := by omega
      have h2 : (v.data (prevIter v (a + (Nat.find h - b)) k)).intersect
          = false := by
        rw [prevIter_add, heq, ← prevIter_add, ← h1]
        exact Nat.find_spec h
      exact absurd h2 (Nat.find_min h (by omega))
    have hinj : Set.InjOn (fun a => prevIter v a k)
        ↑(Finset.range (Nat.find h)) := by
      intro a ha b hb heq
      simp only [Finset.coe_range, Set.mem_Iio] at ha hb
      rcases Nat.lt_trichotomy a b with hx | hx | hx
      · exact absurd heq (fun he => hshift a b hx hb he)
      · exact hx
      · exact absurd heq.symm (fun he => hshift b a hx ha he)
    have hmap : ∀ a ∈ Finset.range (Nat.find h),
        prevIter v a k ∈ (Finset.range v.size).filter
          (fun j => (v.data j).intersect = true) := by
      intro a ha
      rw [Finset.mem_range] at ha
      simp only [Finset.mem_filter, Finset.mem_range]
      exact ⟨prevIter_lt v hdp a k hk, hint a ha⟩
    have hcard := Finset.card_le_card_of_injOn (fun a => prevIter v a k)
      hmap hinj
    rw [Finset.card_range] at hcard
    have : Nat.find h ≤ intersectCount v := hcard
    omega

/-- If the backward walk can escape within its fuel, its result fails the
walk's continuation test: it is a plain node or has `alpha ≤ alpha0`. -/
theorem findIndex_stop (v : ClipVertices) (alpha : ℚ) :
    ∀ fuel start,
      (∃ m, m ≤ fuel ∧ (v.data (prevIter v m start)).intersect = false) →
      ¬((v.data (clipPolyFindIntersectionIndex v fuel start alpha)).intersect
          = true ∧
        (v.data (clipPolyFindIntersectionIndex v fuel start alpha)).alpha
          > alpha) := by
  intro fuel
  induction fuel with
  | zero =>
    intro start h hc
    obtain ⟨m, hm, hesc⟩ := h
    have hm0 : m = 0 := by omega
    subst hm0
    simp only [prevIter] at hesc
    simp only [clipPolyFindIntersectionIndex] at hc
    rw [hc.1] at hesc
    cases hesc
  | succ f ih =>
    intro start h
    simp only [clipPolyFindIntersectionIndex]
    by_cases hc : (v.data start).intersect = true ∧ (v.data start).alpha > alpha
    · rw [if_pos hc]
      apply ih
      obtain ⟨m, hm, hesc⟩ := h
      match m with
      | 0 =>
        simp only [prevIter] at hesc
        rw [hc.1] at hesc
        cases hesc
      | m' + 1 =>
        exact ⟨m', by omega, hesc⟩
    · rw [if_neg hc]
      exact hc

/-- The backward walk stays in range and either stops where it started or
one step behind some INTERSECT node with `alpha > alpha0`. -/
theorem findIndex_result (v : ClipVertices) (alpha : ℚ)
    (hdp : ∀ k, k < v.size → (v.data k).prev < v.size) :
    ∀ fuel start, start < v.size →
      clipPolyFindIntersectionIndex v fuel start alpha < v.size ∧
      (clipPolyFindIntersectionIndex v fuel start alpha = start ∨
       ∃ t, t < v.size ∧ (v.data t).intersect = true ∧
         (v.data t).alpha > alpha ∧
         clipPolyFindIntersectionIndex v fuel start alpha
           = (v.data t).prev) := by
  intro fuel
  induction fuel with
  | zero =>
    intro start hs
    exact ⟨hs, Or.inl rfl⟩
  | succ f ih =>
    intro start hs
    simp only [clipPolyFindIntersectionIndex]
    by_cases hc : (v.data start).intersect = true ∧ (v.data start).alpha > alpha
    · rw [if_pos hc]
      obtain ⟨h1, h2⟩ := ih ((v.data start).prev) (hdp start hs)
      refine ⟨h1, ?_⟩
      rcases h2 with h2 | ⟨t, ht⟩
      · exact Or.inr ⟨start, hs, hc.1, hc.2, h2⟩
      · exact Or.inr ⟨t, ht⟩
    · rw [if_neg hc]
      exact ⟨hs, Or.inl rfl⟩

theorem createIntersection_next (vs : ClipVertices) (at_ : ℕ) (p : TmVec)
    (nb : ℕ) (al : ℚ) (k : ℕ) :
    ((clipPolyCreateIntersection vs at_ p nb al).data k).next
      = if k = at_ then vs.size
        else if k = vs.size then (vs.data at_).next
        else (vs.data k).next := by
  have h : ((clipPolyCreateIntersection vs at_ p nb al).data k).next
      = ((clipPolyCreateVertex vs at_).data k).next := by
    simp only [clipPolyCreateIntersection, updF]
    by_cases h1 : k = vs.size
    · simp [h1]
    · simp [h1]
  rw [h, createVertex_next]

theorem createIntersection_prev (vs : ClipVertices) (at_ : ℕ) (p : TmVec)
    (nb : ℕ) (al : ℚ) (k : ℕ) :
    ((clipPolyCreateIntersection vs at_ p nb al).data k).prev
      = if k = (vs.data at_).next then vs.size
        else if k = vs.size then at_
        else (vs.data k).prev := by
  have h : ((clipPolyCreateIntersection vs at_ p nb al).data k).prev
      = ((clipPolyCreateVertex vs at_).data k).prev := by
    simp only [clipPolyCreateIntersection, updF]
    by_cases h1 : k = vs.size
    · simp [h1]
    · simp [h1]
  rw [h, createVertex_prev]

/-- The splice of `clipPolyCreateIntersection` keeps the slab doubly
linked, for every aliasing pattern of `at_`, its successor and the tail. -/
theorem DLL_insert (vs : ClipVertices) (at_ : ℕ) (p : TmVec) (nb : ℕ)
    (al : ℚ) (hdll : DLL vs) (hat : at_ < vs.size) :
    DLL (clipPolyCreateIntersection vs at_ p nb al) := by
  obtain ⟨hnlA, hplA, hpnA, hnpA⟩ := hdll at_ hat
  intro k hk
  rw [createIntersection_size] at hk
  have hN := fun j => createIntersection_next vs at_ p nb al j
  have hP := fun j => createIntersection_prev vs at_ p nb al j
  refine ⟨?_, ?_, ?_, ?_⟩
  · rw [hN k, createIntersection_size]
    split_ifs with h1 h2
    · omega
    · omega
    · have := (hdll k (by omega)).1
      omega
  · rw [hP k, createIntersection_size]
    split_ifs with h1 h2
    · omega
    · omega
    · have := (hdll k (by omega)).2.1
      omega
  · rw [hN k]
    by_cases h1 : k = at_
    · rw [if_pos h1, hP vs.size, if_neg (by omega), if_pos rfl]
      exact h1.symm
    · rw [if_neg h1]
      by_cases h2 : k = vs.size
      · rw [if_pos h2, hP ((vs.data at_).next), if_pos rfl]
        exact h2.symm
      · rw [if_neg h2]
        have hk2 : k < vs.size := by omega
        obtain ⟨hnlk, hplk, hpnk, hnpk⟩ := hdll k hk2
        have hc1 : (vs.data k).next ≠ (vs.data at_).next := by
          intro he
          rw [he, hpnA] at hpnk
          exact h1 hpnk.symm
        have hc2 : (vs.data k).next ≠ vs.size := by omega
        rw [hP ((vs.data k).next), if_neg hc1, if_neg hc2]
        exact hpnk
  · rw [hP k]
    by_cases h1 : k = (vs.data at_).next
    · rw [if_pos h1, hN vs.size, if_neg (by omega), if_pos rfl]
      exact h1.symm
    · rw [if_neg h1]
      by_cases h2 : k = vs.size
      · rw [if_pos h2, hN at_, if_pos rfl]
        exact h2.symm
      · rw [if_neg h2]
        have hk2 : k < vs.size := by omega
        obtain ⟨hnlk, hplk, hpnk, hnpk⟩ := hdll k hk2
        have hc1 : (vs.data k).prev ≠ at_ := by
          intro he
          rw [he] at hnpk
          exact h1 hnpk.symm
        have hc2 : (vs.data k).prev ≠ vs.size := by omega
        rw [hN ((vs.data k).prev), if_neg hc1, if_neg hc2]
        exact hnpk

/-- Escapability survives an insertion: the new node sits on a detour of
the backward walk (`oldNext → new → at_` replacing `oldNext → at_`), so
every old escape path still reaches its plain node, and the new node
escapes through `at_`. -/
theorem escape_insert (vs : ClipVertices) (at_ : ℕ) (p : TmVec) (nb : ℕ)
    (al : ℚ) (hdll : DLL vs) (hesc : EscapeExists vs) (hat : at_ < vs.size) :
    EscapeExists (clipPolyCreateIntersection vs at_ p nb al) := by
  obtain ⟨hnlA, hplA, hpnA, hnpA⟩ := hdll at_ hat
  have key : ∀ m k, k < vs.size →
      (vs.data (prevIter vs m k)).intersect = false →
      ∃ m2, ((clipPolyCreateIntersection vs at_ p nb al).data
        (prevIter (clipPolyCreateIntersection vs at_ p nb al) m2 k)).intersect
          = false := by
    intro m
    induction m with
    | zero =>
      intro k hk hpl
      simp only [prevIter] at hpl
      refine ⟨0, ?_⟩
      simp only [prevIter]
      rw [createIntersection_intersect, if_neg (Nat.ne_of_lt hk)]
      exact hpl
    | succ m ih =>
      intro k hk hpl
      by_cases hk0 : (vs.data k).intersect = false
      · refine ⟨0, ?_⟩
        simp only [prevIter]
        rw [createIntersection_intersect, if_neg (Nat.ne_of_lt hk)]
        exact hk0
      · have hkprev : (vs.data k).prev < vs.size := (hdll k hk).2.1
        obtain ⟨m2, hm2⟩ := ih ((vs.data k).prev) hkprev hpl
        by_cases hko : k = (vs.data at_).next
        · refine ⟨m2 + 2, ?_⟩
          have hstep1 : ((clipPolyCreateIntersection vs at_ p nb al).data
              k).prev = vs.size := by
            rw [createIntersection_prev, if_pos hko]
          have hstep2 : ((clipPolyCreateIntersection vs at_ p nb al).data
              vs.size).prev = at_ := by
            rw [createIntersection_prev, if_neg (by omega), if_pos rfl]
          show ((clipPolyCreateIntersection vs at_ p nb al).data
            (prevIter (clipPolyCreateIntersection vs at_ p nb al) (m2 + 1)
              (((clipPolyCreateIntersection vs at_ p nb al).data
                k).prev))).intersect = false
          rw [hstep1]
          show ((clipPolyCreateIntersection vs at_ p nb al).data
            (prevIter (clipPolyCreateIntersection vs at_ p nb al) m2
              (((clipPolyCreateIntersection vs at_ p nb al).data
                vs.size).prev))).intersect = false
          rw [hstep2]
          have hprevk : (vs.data k).prev = at_ := by
            rw [hko]
            exact hpnA
          rw [hprevk] at hm2
          exact hm2
        · refine ⟨m2 + 1, ?_⟩
          have hstep : ((clipPolyCreateIntersection vs at_ p nb al).data
              k).prev = (vs.data k).prev := by
            rw [createIntersection_prev, if_neg hko,
              if_neg (Nat.ne_of_lt hk)]
          show ((clipPolyCreateIntersection vs at_ p nb al).data
            (prevIter (clipPolyCreateIntersection vs at_ p nb al) m2
              (((clipPolyCreateIntersection vs at_ p nb al).data
                k).prev))).intersect = false
          rw [hstep]
          exact hm2
  intro k hk
  rw [createIntersection_size] at hk
  by_cases hk1 : k = vs.size
  · subst hk1
    obtain ⟨m, hm⟩ := hesc at_ hat
    obtain ⟨m2, hm2⟩ := key m at_ hat hm
    refine ⟨m2 + 1, ?_⟩
    have hstep : ((clipPolyCreateIntersection vs at_ p nb al).data
        vs.size).prev = at_ := by
      rw [createIntersection_prev, if_neg (by omega), if_pos rfl]
    show ((clipPolyCreateIntersection vs at_ p nb al).data
      (prevIter (clipPolyCreateIntersection vs at_ p nb al) m2
        (((clipPolyCreateIntersection vs at_ p nb al).data
          vs.size).prev))).intersect = false
    rw [hstep]
    exact hm2
  · have hk2 : k < vs.size := by omega
    obtain ⟨m, hm⟩ := hesc k hk2
    exact key m k hk2 hm

/-- Inserting at the stop position of the backward walk keeps ring-adjacent
intersection alphas non-decreasing: the walk's stop test bounds the
predecessor's alpha from above by the new alpha, and the walk's last step
(if any) bounds the successor's alpha from below. -/
theorem sorted_insert (vs : ClipVertices) (at_ i0 : ℕ) (p : TmVec) (nb : ℕ)
    (alpha : ℚ) (hdll : DLL vs) (hsort : AlphaSorted vs)
    (hplain : OrigPlain vs) (hos : vs.originalSize ≤ vs.size)
    (hi0 : i0 < vs.originalSize) (hat : at_ < vs.size)
    (hstop : ¬((vs.data at_).intersect = true ∧ (vs.data at_).alpha > alpha))
    (hres : at_ = (vs.data i0).prev ∨
      ∃ t, t < vs.size ∧ (vs.data t).intersect = true ∧
        (vs.data t).alpha > alpha ∧ at_ = (vs.data t).prev) :
    AlphaSorted (clipPolyCreateIntersection vs at_ p nb alpha) := by
  intro k hk hint hnint
  rw [createIntersection_size] at hk
  by_cases hk1 : k = vs.size
  · subst hk1
    have hoN : (vs.data at_).next < vs.size := (hdll at_ hat).1
    have hnext : ((clipPolyCreateIntersection vs at_ p nb alpha).data
        vs.size).next = (vs.data at_).next := by
      rw [createIntersection_next, if_neg (by omega), if_pos rfl]
    rw [hnext] at hnint ⊢
    rw [createIntersection_intersect, if_neg (Nat.ne_of_lt hoN)] at hnint
    rw [createIntersection_alpha, if_pos rfl,
      createIntersection_alpha, if_neg (Nat.ne_of_lt hoN)]
    rcases hres with h | ⟨t, ht, htint, htal, hteq⟩
    · have hi0s : i0 < vs.size := lt_of_lt_of_le hi0 hos
      have hoi : (vs.data at_).next = i0 := by
        rw [h]
        exact (hdll i0 hi0s).2.2.2
      rw [hoi, hplain i0 hi0] at hnint
      cases hnint
    · have hoi : (vs.data at_).next = t := by
        rw [hteq]
        exact (hdll t ht).2.2.2
      rw [hoi]
      exact le_of_lt htal
  · have hk2 : k < vs.size := by omega
    rw [createIntersection_intersect, if_neg hk1] at hint
    by_cases hka : k = at_
    · subst hka
      have hnext : ((clipPolyCreateIntersection vs k p nb alpha).data
          k).next = vs.size := by
        rw [createIntersection_next, if_pos rfl]
      rw [hnext] at hnint ⊢
      rw [createIntersection_alpha, if_neg hk1,
        createIntersection_alpha, if_pos rfl]
      by_contra hgt
      push_neg at hgt
      exact hstop ⟨hint, hgt⟩
    · have hnk : (vs.data k).next < vs.size := (hdll k hk2).1
      have hnext : ((clipPolyCreateIntersection vs at_ p nb alpha).data
          k).next = (vs.data k).next := by
        rw [createIntersection_next, if_neg hka, if_neg hk1]
      rw [hnext] at hnint ⊢
      rw [createIntersection_intersect,
        if_neg (Nat.ne_of_lt hnk)] at hnint
      rw [createIntersection_alpha, if_neg hk1,
        createIntersection_alpha, if_neg (Nat.ne_of_lt hnk)]
      exact hsort k hk2 hint hnint

theorem prevIter_setPos (vs : ClipVertices) (i : ℕ) (p : TmVec) (m : ℕ) :
    ∀ k, prevIter (setPos vs i p) m k = prevIter vs m k := by
  induction m with
  | zero => intro k; rfl
  | succ n ih =>
    intro k
    show prevIter (setPos vs i p) n (((setPos vs i p).data k).prev) = _
    rw [(setPos_data vs i p k).2.2.2.2.1, ih]
    simp only [prevIter]

/-- The degeneracy perturbation only rewrites a position: the full ring
invariant survives. -/
theorem RingInv_setPos (vs : ClipVertices) (i : ℕ) (p : TmVec)
    (h : RingInv vs) : RingInv (setPos vs i p) := by
  obtain ⟨hdll, hesc, hsort⟩ := h
  refine ⟨?_, ?_, ?_⟩
  · intro k hk
    rw [setPos_size] at hk
    obtain ⟨h1, h2, h3, h4⟩ := hdll k hk
    rw [setPos_size, (setPos_data vs i p k).2.2.2.1,
      (setPos_data vs i p k).2.2.2.2.1,
      (setPos_data vs i p ((vs.data k).next)).2.2.2.2.1,
      (setPos_data vs i p ((vs.data k).prev)).2.2.2.1]
    exact ⟨h1, h2, h3, h4⟩
  · intro k hk
    rw [setPos_size] at hk
    obtain ⟨m, hm⟩ := hesc k hk
    refine ⟨m, ?_⟩
    rw [prevIter_setPos, (setPos_data vs i p _).1]
    exact hm
  · intro k hk hint hnint
    rw [setPos_size] at hk
    rw [(setPos_data vs i p k).1] at hint
    rw [(setPos_data vs i p k).2.2.2.1] at hnint ⊢
    rw [(setPos_data vs i p _).1] at hnint
    rw [(setPos_data vs i p k).2.2.1, (setPos_data vs i p _).2.2.1]
    exact hsort k hk hint hnint

/-- Transformed input rings satisfy the full ring invariant: a single
doubly-linked cycle of plain nodes. -/
theorem transform_ringInv (l : List TmVec) (c : ℕ) :
    RingInv (clipPolyTransformData l c) := by
  have hsize : (clipPolyTransformData l c).size = l.length := rfl
  have hdata : ∀ j, j < l.length → (clipPolyTransformData l c).data j
      = { pos := l.getD j ⟨0, 0⟩,
          next := if j = l.length - 1 then 0 else j + 1,
          prev := if j = 0 then l.length - 1 else j - 1,
          intersect := false, exitFlag := false, processed := false,
          neighbor := 0, alpha := 0 } := by
    intro j hj
    simp only [clipPolyTransformData]
    rw [if_pos hj]
  refine ⟨?_, ?_, ?_⟩
  · intro k hk
    rw [hsize] at hk
    rw [hsize, hdata k hk]
    dsimp only
    refine ⟨?_, ?_, ?_, ?_⟩
    · split_ifs <;> omega
    · split_ifs <;> omega
    · by_cases h1 : k = l.length - 1
      · rw [if_pos h1, hdata 0 (by omega)]
        dsimp only
        split_ifs <;> (try contradiction) <;> omega
      · rw [if_neg h1, hdata (k + 1) (by omega)]
        dsimp only
        split_ifs <;> (try contradiction) <;> omega
    · by_cases h1 : k = 0
      · rw [if_pos h1, hdata (l.length - 1) (by omega)]
        dsimp only
        split_ifs <;> (try contradiction) <;> omega
      · rw [if_neg h1, hdata (k - 1) (by omega)]
        dsimp only
        split_ifs <;> (try contradiction) <;> omega
  · intro k hk
    rw [hsize] at hk
    refine ⟨0, ?_⟩
    show ((clipPolyTransformData l c).data k).intersect = false
    rw [hdata k hk]
  · intro k hk hint
    rw [hsize] at hk
    rw [hdata k hk] at hint
    cases hint

/-- Inserting a new intersection node at the position chosen by
`clipPolyFindIntersectionIndex` (started one behind original vertex `i0`)
preserves the full ring invariant. -/
theorem RingInv_insert (vs : ClipVertices) (i0 : ℕ) (p : TmVec) (nb : ℕ)
    (alpha : ℚ) (hinv : RingInv vs) (hplain : OrigPlain vs)
    (hos : vs.originalSize ≤ vs.size) (hi0 : i0 < vs.originalSize) :
    RingInv (clipPolyCreateIntersection vs
      (clipPolyFindIntersectionIndex vs vs.size ((vs.data i0).prev) alpha)
      p nb alpha) := by
  obtain ⟨hdll, hesc, hsort⟩ := hinv
  have hdp : ∀ k, k < vs.size → (vs.data k).prev < vs.size :=
    fun k hk => (hdll k hk).2.1
  have hi0s : i0 < vs.size := lt_of_lt_of_le hi0 hos
  have hstart : (vs.data i0).prev < vs.size := hdp i0 hi0s
  obtain ⟨hat, hres⟩ :=
    findIndex_result vs alpha hdp vs.size ((vs.data i0).prev) hstart
  have hstop := findIndex_stop vs alpha vs.size ((vs.data i0).prev) ?_
  · exact ⟨DLL_insert _ _ _ _ _ hdll hat,
      escape_insert _ _ _ _ _ hdll hesc hat,
      sorted_insert _ _ i0 _ _ _ hdll hsort hplain hos hi0 hat hstop hres⟩
  · obtain ⟨m, hm, hpl⟩ := escape_within_count vs hdp ((vs.data i0).prev)
      hstart (hesc _ hstart)
    exact ⟨m, le_trans hm (intersectCount_le_size vs), hpl⟩

/-- The ring invariant holds throughout the find-intersections loop. -/
theorem findLoop_ringInv (fuel : ℕ) :
    ∀ st, FindInvariant st → RingInv st.a → RingInv st.b →
      RingInv (clipPolyFindIntersectionsLoop fuel st).1 ∧
      RingInv (clipPolyFindIntersectionsLoop fuel st).2 := by
  induction fuel with
  | zero =>
    intro st h ha hb
    exact ⟨ha, hb⟩
  | succ f ih =>
    intro st h ha hb
    obtain ⟨hpair, hap, hbp⟩ := h
    simp only [clipPolyFindIntersectionsLoop]
    by_cases hia : st.i ≥ st.a.originalSize
    · rw [if_pos hia]
      exact ⟨ha, hb⟩
    · rw [if_neg hia]
      push_neg at hia
      by_cases hjb : st.j ≥ st.b.originalSize
      · rw [if_pos hjb]
        exact ih { st with i := st.i + 1, aPrevIndex := st.i, j := 0 }
          ⟨hpair, Or.inr hia, hbp⟩ ha hb
      · rw [if_neg hjb]
        push_neg at hjb
        have hap2 : st.aPrevIndex < st.a.originalSize :=
          hap.resolve_left (by omega)
        have hbp2 : st.bPrevIndex < st.b.originalSize :=
          hbp.resolve_left (by omega)
        have hoa := hpair.2.2.1
        have hob := hpair.2.2.2.1
        cases clipPolyHitParams ((st.a.data st.aPrevIndex).pos)
            _ ((st.b.data st.bPrevIndex).pos) _ with
        | none =>
          exact ih { st with j := st.j + 1, bPrevIndex := st.j }
            ⟨hpair, hap, Or.inr hjb⟩ ha hb
        | some al =>
          dsimp only
          by_cases hd1 : al.1 ≤ 1 / 100000
          · rw [if_pos hd1]
            exact ih { st with a := setPos st.a st.aPrevIndex _ }
              ⟨PairState_setPos _ _ _ _ hpair (hoa _ hap2), hap, hbp⟩
              (RingInv_setPos _ _ _ ha) hb
          · rw [if_neg hd1]
            by_cases hd2 : al.1 ≥ 99999 / 100000
            · rw [if_pos hd2]
              exact ih { st with a := setPos st.a st.i _ }
                ⟨PairState_setPos _ _ _ _ hpair (hoa _ hia), hap, hbp⟩
                (RingInv_setPos _ _ _ ha) hb
            · rw [if_neg hd2]
              by_cases hd3 : al.2 ≤ 1 / 100000
              · rw [if_pos hd3]
                refine ih { st with b := setPos st.b st.bPrevIndex _ }
                  ⟨?_, hap, hbp⟩ ha (RingInv_setPos _ _ _ hb)
                exact PairState_comm _ _ (PairState_setPos _ _ _ _
                  (PairState_comm _ _ hpair) (hob _ hbp2))
              · rw [if_neg hd3]
                by_cases hd4 : al.2 ≥ 99999 / 100000
                · rw [if_pos hd4]
                  refine ih { st with b := setPos st.b st.j _ }
                    ⟨?_, hap, hbp⟩ ha (RingInv_setPos _ _ _ hb)
                  exact PairState_comm _ _ (PairState_setPos _ _ _ _
                    (PairState_comm _ _ hpair) (hob _ hjb))
                · rw [if_neg hd4]
                  refine ih _ ⟨PairState_insert _ _ _ _ _ _ _ hpair,
                    ?_, ?_⟩ ?_ ?_
                  · show st.a.originalSize = 0 ∨
                      st.aPrevIndex < st.a.originalSize
                    exact hap
                  · show st.b.originalSize = 0 ∨ st.j < st.b.originalSize
                    exact Or.inr hjb
                  · show RingInv (clipPolyCreateIntersection st.a _ _ _ _)
                    exact RingInv_insert st.a st.i _ _ _ ha hoa
                      hpair.2.2.2.2.1 hia
                  · show RingInv (clipPolyCreateIntersection st.b _ _ _ _)
                    exact RingInv_insert st.b st.j _ _ _ hb hob
                      hpair.2.2.2.2.2 hjb

/-- C4 amended: after `clipPolyFindIntersections`, walking any ring along
`next` yields NON-DECREASING alphas over each run of adjacent intersection
nodes (all such runs live on a single original edge).  Strict ascent fails
in general: two edge pairs meeting the same point produce two intersection
nodes with EQUAL alphas, and the insertion walk of
`clipPolyFindIntersectionIndex` skips only strictly larger alphas, placing
the later equal-alpha node directly after the earlier one (see the
counterexample). -/
theorem C4_amended (va vb : List TmVec) (capA capB fuel : ℕ) :
    AlphaSorted (clipPolyFindIntersections (clipPolyTransformData va capA)
      (clipPolyTransformData vb capB) fuel).1 ∧
    AlphaSorted (clipPolyFindIntersections (clipPolyTransformData va capA)
      (clipPolyTransformData vb capB) fuel).2 := by
  have h := findLoop_ringInv fuel
    { a := clipPolyTransformData va capA, b := clipPolyTransformData vb capB,
      i := 0, aPrevIndex := va.length - 1, j := 0,
      bPrevIndex := vb.length - 1 }
    ⟨transform_pairState va vb capA capB, ?_, ?_⟩
    (transform_ringInv va capA) (transform_ringInv vb capB)
  · exact ⟨h.1.2.2, h.2.2.2⟩
  · rcases Nat.eq_zero_or_pos va.length with h0 | h0
    · exact Or.inl h0
    · exact Or.inr
        (by simpa [clipPolyTransformData] using Nat.sub_lt h0 one_pos)
  · rcases Nat.eq_zero_or_pos vb.length with h0 | h0
    · exact Or.inl h0
    · exact Or.inr
        (by simpa [clipPolyTransformData] using Nat.sub_lt h0 one_pos)
